import Mathlib

/-!
# iPPG heart-rate monitor: signal-processing core of `src/app.js`

A shallow embedding of the class `iPPGHeartRateMonitor`.

Conventions of the embedding.

* JavaScript numbers are modelled by exact rationals (`ℚ`); array indices and
  lengths by `Nat`.  The constant `0.3` is the rational `3/10`.  For `chromAlgorithm`
  and `calculateConfidence`, whose results depend on rounding, the namespace `Binary64`
  models IEEE 754 binary64 arithmetic.
* `Date.now()` is an input of every operation that reads the clock.
* `null` results are `Option.none`.
* DOM, chart and camera calls are external collaborators; of the DOM only the
  text written to `hrStatus` and to `heartRateValue` is kept, as state fields.
-/

namespace IPPG

/-! ## Peak detection and rate estimation (`app.js` 599-643) -/

/-- Constant `threshold` of `findPeaks`. -/
def threshold : ℚ := 3 / 10

/-- Constant `minDistance` of `findPeaks`. -/
def minDistance : ℤ := 10

/-- Array read `signal[i]`; every read of the source is in range. -/
def sample (signal : List ℚ) (i : Nat) : ℚ := signal.getD i 0

/-- Body of the `for` loop of `findPeaks` at index `i`, with `peaks` the array
accumulated so far. -/
def findPeaksStep (signal : List ℚ) (peaks : List Nat) (i : Nat) : List Nat :=
  if sample signal i > sample signal (i - 1) ∧ sample signal i > sample signal (i + 1)
      ∧ sample signal i > threshold then
    if peaks.length = 0 ∨ (i : ℤ) - (peaks.getD (peaks.length - 1) 0 : ℤ) ≥ minDistance then
      peaks ++ [i]
    else peaks
  else peaks

/-- Function `findPeaks(signal)`: the loop runs `i = 1, ..., signal.length - 2`. -/
def findPeaks (signal : List ℚ) : List Nat :=
  (List.range' 1 (signal.length - 2)).foldl (findPeaksStep signal) []

/-- The array `intervals` built by the loop `for (i = 1; i < peaks.length; i++)`
of `calculateHeartRate`. -/
def peakIntervals (peaks : List Nat) : List ℚ :=
  (List.range' 1 (peaks.length - 1)).map
    fun i => ((peaks.getD i 0 : ℤ) - (peaks.getD (i - 1) 0 : ℤ) : ℚ)

/-- The value `avgInterval`: `intervals.reduce((a, b) => a + b, 0) / intervals.length`. -/
def avgInterval (peaks : List Nat) : ℚ :=
  (peakIntervals peaks).foldl (fun a b => a + b) 0 / ((peakIntervals peaks).length : ℚ)

/-- Function `calculateHeartRate(signal)`, with `this.samplingRate` as a parameter. -/
def calculateHeartRate (samplingRate : ℚ) (signal : List ℚ) : Option ℚ :=
  if signal.length < 64 then none
  else
    let peaks := findPeaks signal
    if peaks.length < 3 then none
    else some ((samplingRate * 60) / avgInterval peaks)

/-! ## Detrending and smoothing (`app.js` 573-597) -/

/-- Inner loop of `applyBandpassFilter`: from `(sum, count)` add `filtered[j]`
for each `j` of `js` in turn. -/
def windowLoop (filtered : List ℚ) (js : List Nat) (acc : ℚ × ℚ) : ℚ × ℚ :=
  js.foldl (fun sc j => (sc.1 + sample filtered j, sc.2 + 1)) acc

/-- Value pushed to `smoothed` at index `i`: `j` runs from `max(0, i - 3)` to
`min(filtered.length - 1, i + 3)`. -/
def smoothedAt (filtered : List ℚ) (i : Nat) : ℚ :=
  let lo := max 0 (i - 3)
  let hi := min (filtered.length - 1) (i + 3)
  let sc := windowLoop filtered (List.range' lo (hi + 1 - lo)) (0, 0)
  sc.1 / sc.2

/-- Function `applyBandpassFilter(signal)`. -/
def applyBandpassFilter (signal : List ℚ) : List ℚ :=
  if signal.length < 10 then signal
  else
    let mean := signal.foldl (fun a b => a + b) 0 / (signal.length : ℚ)
    let filtered := signal.map fun x => x - mean
    (List.range filtered.length).map (smoothedAt filtered)

/-- The triangle wave of period 20: `-1` at `i % 20 = 0`, rising to `1` at `i % 20 = 10`. -/
def triangleAt (i : Nat) : ℚ :=
  if i % 20 ≤ 10 then -1 + ((i % 20 : Nat) : ℚ) / 5
  else 1 - (((i % 20 : Nat) : ℚ) - 10) / 5

/-- The first 150 samples of the triangle wave. -/
def triangle150 : List ℚ := (List.range 150).map triangleAt

/-! ## Monitor state and pipeline controller -/

/-- An element of `heartRateHistory`: `{ time, value }`. -/
structure HeartRateEstimate where
  time : ℚ
  value : ℚ
deriving DecidableEq

/-- Text last written to the `hrStatus` element by `updateStatus`. -/
inductive HrStatus where
  /-- Nothing written yet. -/
  | unset
  /-- Text `Initializing...`. -/
  | initializing
  /-- Text `Measuring...`. -/
  | measuring
  /-- Text `Poor Signal Quality`. -/
  | poorSignal
  /-- Text `Calibrating...`. -/
  | calibrating
  /-- Text `Stopped`. -/
  | stopped
deriving DecidableEq

/-- Content last written to the `heartRateValue` element by `updateHeartRate`. -/
inductive HrDisplay where
  /-- Nothing written yet. -/
  | unset
  /-- The placeholder `--`. -/
  | dashes
  /-- A rounded bpm value. -/
  | bpm (n : ℤ)
deriving DecidableEq

/-- A rectangle `{ x, y, width, height }`. -/
structure ROI where
  x : ℚ
  y : ℚ
  width : ℚ
  height : ℚ
deriving DecidableEq

/-- Instance fields of `iPPGHeartRateMonitor` read or written by the pipeline. -/
structure Monitor where
  isMonitoring : Bool
  processingActive : Bool
  samplingRate : Nat
  windowSize : Nat
  signalBuffer : List ℚ
  timeBuffer : List ℚ
  heartRateHistory : List HeartRateEstimate
  startTime : Option ℚ
  roiRect : Option ROI
  faceDetected : Bool
  frameCount : Nat
  hrStatus : HrStatus
  heartRateValue : HrDisplay
deriving DecidableEq

/-- State set up by the constructor. -/
def Monitor.initial : Monitor where
  isMonitoring := false
  processingActive := false
  samplingRate := 30
  windowSize := 300
  signalBuffer := []
  timeBuffer := []
  heartRateHistory := []
  startTime := none
  roiRect := none
  faceDetected := false
  frameCount := 0
  hrStatus := .unset
  heartRateValue := .unset

/-- Expression `(Date.now() - this.startTime) / 1000`; a `null` start time counts as `0`. -/
def elapsed (st : Monitor) (clock : ℚ) : ℚ := (clock - st.startTime.getD 0) / 1000

/-- Function `Math.round`. -/
def mathRound (x : ℚ) : ℤ := ⌊x + 1 / 2⌋

/-- Function `processSignalData()`; `clock` is the value of `Date.now()`. -/
def processSignalData (st : Monitor) (clock : ℚ) : Monitor :=
  if st.signalBuffer.length < st.samplingRate * 5 then st
  else
    let filteredSignal := applyBandpassFilter st.signalBuffer
    match calculateHeartRate st.samplingRate filteredSignal with
    | some heartRate =>
      if heartRate ≠ 0 ∧ heartRate ≥ 45 ∧ heartRate ≤ 180 then
        let currentTime := elapsed st clock
        { st with
          heartRateValue := .bpm (mathRound heartRate)
          heartRateHistory :=
            (st.heartRateHistory ++
              [({ time := currentTime, value := heartRate } : HeartRateEstimate)]).filter
              fun entry => currentTime - entry.time ≤ 60
          hrStatus := .measuring }
      else { st with hrStatus := .poorSignal }
    | none => { st with hrStatus := .poorSignal }

/-- Outcome of `findFaceRegion` inside `detectFace`. -/
inductive FaceResult where
  /-- The video has no dimensions yet: `detectFace` returns at once. -/
  | noVideo
  /-- No face region found, or an exception was caught. -/
  | notFound
  /-- A face region whose `calculateROI` is `roi`. -/
  | found (roi : ROI)

/-- What one call of `processFrame` reads from its surroundings. -/
structure FrameInput where
  /-- Outcome of the face search. -/
  face : FaceResult
  /-- Result of `extractSignal`; `none` stands for `null` and for `NaN`. -/
  signalValue : Option ℚ
  /-- Value of `Date.now()` when the sample is stored. -/
  clockSample : ℚ
  /-- Value of `Date.now()` inside `processSignalData`. -/
  clockEstimate : ℚ

/-- Function `detectFace()`. -/
def detectFace (st : Monitor) : FaceResult → Monitor
  | .noVideo => st
  | .notFound => { st with faceDetected := false }
  | .found roi => { st with roiRect := some roi, faceDetected := true }

/-- Lines 345-358 of `processFrame`: store the sample and its timestamp, evict the
head when the buffer is longer than `windowSize`, then estimate when 5 seconds are buffered. -/
def ingestSample (st : Monitor) (signalValue clockSample clockEstimate : ℚ) : Monitor :=
  let currentTime := elapsed st clockSample
  let st := { st with
    signalBuffer := st.signalBuffer ++ [signalValue]
    timeBuffer := st.timeBuffer ++ [currentTime] }
  let st :=
    if st.signalBuffer.length > st.windowSize then
      { st with signalBuffer := st.signalBuffer.tail, timeBuffer := st.timeBuffer.tail }
    else st
  if st.signalBuffer.length ≥ st.samplingRate * 5 then processSignalData st clockEstimate
  else st

/-- Function `processFrame()`, one invocation. -/
def processFrame (st : Monitor) (inp : FrameInput) : Monitor :=
  if !st.isMonitoring || !st.processingActive then st
  else
    let st := { st with frameCount := st.frameCount + 1 }
    if st.frameCount % 2 = 0 then
      let st := detectFace st inp.face
      if st.faceDetected ∧ st.roiRect.isSome then
        match inp.signalValue with
        | some signalValue => ingestSample st signalValue inp.clockSample inp.clockEstimate
        | none => st
      else st
    else st

/-- Function `startMonitoring()`; `cameraReady` is the result of `setupCamera()`. -/
def startMonitoring (st : Monitor) (cameraReady : Bool) (clock : ℚ) : Monitor :=
  if st.isMonitoring then st
  else if !cameraReady then st
  else
    { st with
      isMonitoring := true
      processingActive := true
      startTime := some clock
      signalBuffer := []
      timeBuffer := []
      heartRateHistory := []
      frameCount := 0
      hrStatus := .initializing
      heartRateValue := .dashes }

/-- Function `stopMonitoring()`. -/
def stopMonitoring (st : Monitor) : Monitor :=
  { st with
    isMonitoring := false
    processingActive := false
    hrStatus := .stopped
    faceDetected := false }

/-- Function `calibrate()`, up to the point where it arms its timer. -/
def calibrate (st : Monitor) (clock : ℚ) : Monitor :=
  if !st.isMonitoring then st
  else
    { st with
      signalBuffer := []
      timeBuffer := []
      startTime := some clock
      frameCount := 0
      hrStatus := .calibrating
      heartRateValue := .dashes }

/-- Callback armed by `calibrate()`, run 3 seconds later. -/
def calibrateTimeout (st : Monitor) : Monitor :=
  if st.isMonitoring then { st with hrStatus := .measuring } else st

/-- Change listener of the `windowSize` control: `parseInt(value) * samplingRate`. -/
def setWindowSize (st : Monitor) (seconds : Nat) : Monitor :=
  { st with windowSize := seconds * st.samplingRate }

/-- What can happen to a monitor. -/
inductive Event where
  | start (cameraReady : Bool) (clock : ℚ)
  | stop
  | calibrate (clock : ℚ)
  | calibrateTimeout
  | setWindowSize (seconds : Nat)
  | frame (inp : FrameInput)

/-- Effect of one event. -/
def step (st : Monitor) : Event → Monitor
  | .start cameraReady clock => startMonitoring st cameraReady clock
  | .stop => stopMonitoring st
  | .calibrate clock => calibrate st clock
  | .calibrateTimeout => calibrateTimeout st
  | .setWindowSize seconds => setWindowSize st seconds
  | .frame inp => processFrame st inp

/-- State reached from the constructor's state by a sequence of events. -/
def run (events : List Event) : Monitor := events.foldl step Monitor.initial

/-! ## Quality scoring in exact arithmetic (`app.js` 659-676) -/

/-- Function `calculateConfidence()` on the contents of `signalBuffer`, in exact arithmetic;
`Binary64.calculateConfidence` below is the same function with binary64 rounding.
`Math.sqrt` is the parameter `sqrt`.  When `mean` is zero the variance is positive here, so in the source
`Math.sqrt(variance) / Math.abs(mean)` is `+Infinity`, `(1 - cv) * 100` is `-Infinity` and
the clamp `Math.max(0, Math.min(100, ·))` yields `0`. -/
def calculateConfidence (sqrt : ℚ → ℚ) (signalBuffer : List ℚ) : ℚ :=
  if signalBuffer.length < 30 then 0
  else
    let recent := signalBuffer.drop (signalBuffer.length - 30)
    let mean := recent.foldl (fun a b => a + b) 0 / (recent.length : ℚ)
    let variance := recent.foldl (fun sum x => sum + (x - mean) ^ 2) 0 / (recent.length : ℚ)
    if variance = 0 then 50
    else if |mean| = 0 then 0
    else
      let cv := sqrt variance / |mean|
      max 0 (min 100 ((1 - cv) * 100))

/-! ## IEEE 754 binary64 arithmetic

JavaScript numbers are binary64 values.  A finite one is modelled by the rational it
denotes, the sign of a zero is not kept, and each arithmetic operation is the exact
operation followed by rounding to the nearest binary64 value, ties to even.  The result
`none` means that the value is not a finite number (overflow, a zero divisor, the square
root of a negative number); the model then says nothing about what the source computes
from it. -/

namespace Binary64

/-- The power `2 ^ e` for an integer exponent. -/
def twoPow : ℤ → ℚ
  | Int.ofNat k => ((2 ^ k : Nat) : ℚ)
  | Int.negSucc k => 1 / ((2 ^ (k + 1) : Nat) : ℚ)

/-- The integer `⌊log₂ n⌋` of a positive natural, by halving at most `fuel` times. -/
def log2Fuel : Nat → Nat → Nat
  | 0, _ => 0
  | fuel + 1, n => if 2 ≤ n then log2Fuel fuel (n / 2) + 1 else 0

/-- The integer `⌊log₂ n⌋` of a positive natural. -/
def log2 (n : Nat) : Nat := log2Fuel n n

/-- The integer `⌊log₂ |x|⌋` of a non-zero rational. -/
def ilog2 (x : ℚ) : ℤ :=
  let e0 : ℤ := (log2 x.num.natAbs : ℤ) - (log2 x.den : ℤ)
  if twoPow e0 ≤ |x| then e0 else e0 - 1

/-- Rounding to the nearest integer, ties to the even one. -/
def roundHalfEven (x : ℚ) : ℤ :=
  let f := ⌊x⌋
  let r := x - (f : ℚ)
  if r < 1 / 2 then f
  else if 1 / 2 < r then f + 1
  else if f % 2 = 0 then f
  else f + 1

/-- The binary64 value nearest to `x`: 53 significant bits, spacing `2 ^ (e - 52)` in the
binade of exponent `e`, the exponent held at `-1022` for subnormal values, and no finite
result when the rounded magnitude reaches `2 ^ 1024`. -/
def toDouble (x : ℚ) : Option ℚ :=
  if x = 0 then some 0
  else
    let e := max (ilog2 x) (-1022)
    let ulp := twoPow (e - 52)
    let y := (roundHalfEven (x / ulp) : ℚ) * ulp
    if |y| < twoPow 1024 then some y else none

/-- Operator `+` on numbers. -/
def add (a b : ℚ) : Option ℚ := toDouble (a + b)

/-- Operator `-` on numbers. -/
def sub (a b : ℚ) : Option ℚ := toDouble (a - b)

/-- Operator `*` on numbers. -/
def mul (a b : ℚ) : Option ℚ := toDouble (a * b)

/-- Operator `/` on numbers; a zero divisor gives `Infinity` or `NaN`. -/
def div (a b : ℚ) : Option ℚ := if b = 0 then none else toDouble (a / b)

/-- Bits `b - 1, ..., 0` of the integer square root of `n`, added to `acc` from the top:
a bit is set when the square of the result stays at most `n`. -/
def isqrtBits (n : Nat) : Nat → Nat → Nat
  | 0, acc => acc
  | b + 1, acc => isqrtBits n b (if (acc + 2 ^ b) ^ 2 ≤ n then acc + 2 ^ b else acc)

/-- The integer `⌊√n⌋`. -/
def isqrt (n : Nat) : Nat := isqrtBits n (log2 n / 2 + 1) 0

/-- Function `Math.sqrt`, correctly rounded.  With `r = ⌊√x · 2 ^ k⌋` of at least 64 bits
no binary64 value or midpoint of two lies strictly between `r` and `r + 1`, so `√x` rounds
as the midpoint `(2 r + 1) / 2 ^ (k + 1)` does. -/
def sqrt (x : ℚ) : Option ℚ :=
  if x < 0 then none
  else if x = 0 then some 0
  else
    let k : Nat := (64 - ilog2 x / 2).toNat
    let r := isqrt ⌊x * ((4 ^ k : Nat) : ℚ)⌋.toNat
    toDouble (((2 * r + 1 : Nat) : ℚ) / ((2 ^ (k + 1) : Nat) : ℚ))

/-- The constant `mean` of `chromAlgorithm`: `(r + g + b) / 3`. -/
def channelMean (r g b : ℚ) : Option ℚ := do
  let rg ← add r g
  let rgb ← add rg b
  div rgb 3

/-- Function `chromAlgorithm(r, g, b)` (`app.js` 523-531). -/
def chromAlgorithm (r g b : ℚ) : Option ℚ := do
  let mean ← channelMean r g b
  if mean = 0 then some 0
  else do
    let chrR ← sub (← div r mean) 1
    let chrG ← sub (← div g mean) 1
    sub (← mul 3 chrR) (← mul 2 chrG)

/-- The constant `mean` of `calculateConfidence`:
`recent.reduce((a, b) => a + b, 0) / recent.length`. -/
def recentMean (recent : List ℚ) : Option ℚ := do
  let total ← recent.foldlM (fun a b => add a b) 0
  div total (recent.length : ℚ)

/-- One step of the reducer `(sum, x) => sum + (x - mean) ** 2`; the square is taken as
the correctly rounded product. -/
def squareStep (mean sum x : ℚ) : Option ℚ := do
  let d ← sub x mean
  add sum (← mul d d)

/-- Function `calculateConfidence()` (`app.js` 659-676) on the contents of `signalBuffer`.
When `Math.abs(mean)` is zero the variance is not, so the quotient `cv` is `+Infinity`,
`(1 - cv) * 100` is `-Infinity` and the clamp yields `0`. -/
def calculateConfidence (signalBuffer : List ℚ) : Option ℚ :=
  if signalBuffer.length < 30 then some 0
  else
    let recent := signalBuffer.drop (signalBuffer.length - 30)
    do
      let mean ← recentMean recent
      let variance ← div (← recent.foldlM (squareStep mean) 0) (recent.length : ℚ)
      if variance = 0 then some 50
      else if |mean| = 0 then some 0
      else do
        let cv ← div (← sqrt variance) |mean|
        let confidence ← mul (← sub 1 cv) 100
        some (max 0 (min 100 confidence))

end Binary64


/-! ## Specification-side definitions -/

/-- Index `i` qualifies as a peak of `signal`: it is interior, strictly above both
neighbours and above the threshold. -/
def isCandidate (signal : List ℚ) (i : Nat) : Prop :=
  1 ≤ i ∧ i + 2 ≤ signal.length ∧ sample signal i > sample signal (i - 1) ∧
    sample signal i > sample signal (i + 1) ∧ sample signal i > 3 / 10

/-- Loop invariant of `findPeaks` after the indices `1, ..., k`. -/
def PeaksUpTo (signal : List ℚ) (k : Nat) (peaks : List Nat) : Prop :=
  peaks.Pairwise (· < ·) ∧
    ∀ i, i ∈ peaks ↔
      (1 ≤ i ∧ i ≤ k ∧ sample signal i > sample signal (i - 1) ∧
        sample signal i > sample signal (i + 1) ∧ sample signal i > threshold ∧
        ∀ j ∈ peaks, j < i → j + 10 ≤ i)

instance (signal : List ℚ) (i : Nat) : Decidable (isCandidate signal i) := by
  unfold isCandidate
  infer_instance

/-- A signal of 15 samples, zero except for two maxima of height 1 at indices 5 and 12. -/
def twoMaxima : List ℚ := [0, 0, 0, 0, 0, 1, 0, 0, 0, 0, 0, 0, 1, 0, 0]

/-- A signal of 15 samples, zero except for two maxima of height 1 at indices 2 and 13. -/
def farMaxima : List ℚ := [0, 0, 1, 0, 0, 0, 0, 0, 0, 0, 0, 0, 0, 1, 0]

/-- Differences between consecutive elements of a list of indices. -/
def consecutiveDiffs (peaks : List Nat) : List ℚ :=
  List.zipWith (fun (a b : Nat) => (b : ℚ) - (a : ℚ)) peaks peaks.tail

/-- Arithmetic mean of a list of numbers. -/
def arithmeticMean (xs : List ℚ) : ℚ := xs.sum / (xs.length : ℚ)

/-- Arithmetic mean of `x[j] - m` over the indices `j` with
`max(0, i - 3) ≤ j ≤ min(length - 1, i + 3)`; on naturals `i - 3` is `max(0, i - 3)`. -/
def windowMean (x : List ℚ) (m : ℚ) (i : Nat) : ℚ :=
  (∑ j ∈ Finset.Icc (i - 3) (min (x.length - 1) (i + 3)), (sample x j - m)) /
    ((Finset.Icc (i - 3) (min (x.length - 1) (i + 3))).card : ℚ)

/-- The ramp `0, 1, ..., 9`. -/
def ramp10 : List ℚ := [0, 1, 2, 3, 4, 5, 6, 7, 8, 9]

/-- A monitor whose buffer holds the 150 triangle samples and whose history has entries at
`t = 0` and `t = 30`; the clock origin is 0. -/
def triangleMonitor : Monitor :=
  { Monitor.initial with
    isMonitoring := true
    processingActive := true
    startTime := some 0
    signalBuffer := triangle150
    timeBuffer := (List.range 150).map fun i => (i : ℚ) / 30
    heartRateHistory := [{ time := 0, value := 72 }, { time := 30, value := 75 }] }

/-- A monitor whose buffer holds 150 zero samples: no peak is found. -/
def flatMonitor : Monitor :=
  { Monitor.initial with
    isMonitoring := true
    processingActive := true
    startTime := some 0
    signalBuffer := List.replicate 150 0
    timeBuffer := (List.range 150).map fun i => (i : ℚ) / 30 }

/-- A stored sample: its value and the two clock readings of the frame that stored it. -/
structure StoredSample where
  value : ℚ
  clockSample : ℚ
  clockEstimate : ℚ

/-- The storing block of `processFrame` run once for each sample, in order. -/
def ingestAll (st : Monitor) (samples : List StoredSample) : Monitor :=
  samples.foldl (fun s x => ingestSample s x.value x.clockSample x.clockEstimate) st

/-- The pair (sample, timestamp) that `processFrame` pushes when event `ev` arrives in
state `st`, if it pushes one. -/
def recordedPair (st : Monitor) : Event → Option (ℚ × ℚ)
  | .frame inp =>
    if st.isMonitoring = true ∧ st.processingActive = true ∧ (st.frameCount + 1) % 2 = 0 ∧
        (detectFace st inp.face).faceDetected = true ∧
        (detectFace st inp.face).roiRect.isSome = true then
      inp.signalValue.map fun v => (v, elapsed st inp.clockSample)
    else none
  | _ => none

/-- Whether event `ev` arriving in state `st` empties both buffers: a monitoring start
that goes through, or a calibration while monitoring. -/
def resetsBuffers (st : Monitor) : Event → Bool
  | .start cameraReady _ => !st.isMonitoring && cameraReady
  | .calibrate _ => st.isMonitoring
  | _ => false

/-- One event on a monitor paired with the log of the pairs recorded since the last reset. -/
def stepLogged (s : Monitor × List (ℚ × ℚ)) (ev : Event) : Monitor × List (ℚ × ℚ) :=
  (step s.1 ev,
    if resetsBuffers s.1 ev then [] else s.2 ++ (recordedPair s.1 ev).toList)

/-- The run of `run`, together with the log of recorded pairs. -/
def runLogged (events : List Event) : Monitor × List (ℚ × ℚ) :=
  events.foldl stepLogged (Monitor.initial, [])

/-- Frames processed in order by `processFrame`, together with the log of recorded pairs. -/
def framesLogged (s : Monitor × List (ℚ × ℚ)) (frames : List FrameInput) :
    Monitor × List (ℚ × ℚ) :=
  frames.foldl (fun s inp => stepLogged s (.frame inp)) s

/-- A frame in which a face is found and the sample `0` is extracted. -/
def validFrame : FrameInput :=
  { face := .found { x := 0, y := 0, width := 10, height := 10 }
    signalValue := some 0
    clockSample := 0
    clockEstimate := 0 }

/-- Start monitoring, process 302 frames (151 samples are stored), then set the window
to 5 seconds. -/
def shrinkTrace : List Event :=
  Event.start true 0 :: (List.replicate 302 (Event.frame validFrame) ++ [Event.setWindowSize 5])

/-- The two buffers have one length and, read as pairs, are a tail end of the log. -/
def Aligned (s : Monitor × List (ℚ × ℚ)) : Prop :=
  s.1.signalBuffer.length = s.1.timeBuffer.length ∧
    List.zip s.1.signalBuffer s.1.timeBuffer <:+ s.2

/-- Start monitoring at clock 1000, then four frames: the second stores sample 5 at clock
3000, the fourth stores sample 7 at clock 4000. -/
def twoSampleTrace : List Event :=
  [ Event.start true 1000,
    Event.frame { validFrame with signalValue := some 4, clockSample := 2000 },
    Event.frame { validFrame with signalValue := some 5, clockSample := 3000 },
    Event.frame { validFrame with signalValue := none, clockSample := 3500 },
    Event.frame { validFrame with signalValue := some 7, clockSample := 4000 } ]

/-- The monitor `flatMonitor` while its status reads `Measuring...`. -/
def flatMeasuring : Monitor := { flatMonitor with hrStatus := .measuring }

/-- A monitoring state with 10 buffered samples, less than 5 seconds. -/
def shortMonitor : Monitor :=
  { Monitor.initial with
    isMonitoring := true
    processingActive := true
    startTime := some 0
    signalBuffer := ramp10
    timeBuffer := (List.range 10).map fun i => (i : ℚ) / 30
    hrStatus := .measuring }

/-- The rate `samplingRate * 60 * (k - 1) / (p_k - p_1)` of a list of `k` peak indices with
first element `p_1` and last element `p_k`. -/
def endpointRate (samplingRate : ℚ) (peaks : List Nat) : ℚ :=
  samplingRate * 60 * ((peaks.length : ℚ) - 1) /
    ((peaks.getD (peaks.length - 1) 0 : ℚ) - (peaks.getD 0 0 : ℚ))

/-- Start monitoring at clock 0, then 300 frames that store the 150 triangle samples; the
estimate made when the 150th sample arrives reads the clock at 5000. -/
def triangleTrace : List Event :=
  Event.start true 0 ::
    (List.range 300).map fun i =>
      Event.frame
        { validFrame with signalValue := some (triangleAt (i / 2)), clockEstimate := 5000 }

/-- The binary64 value nearest to `0.1`. -/
def tenth : ℚ := 3602879701896397 / 36028797018963968

/-- The binary64 value nearest to `45007 / 450`, a channel sum of 45007 over 450 pixels. -/
def levelAverage : ℚ := 3518984521337915 / 35184372088832

/-- The binary64 value nearest to `5.1`, a channel sum of 51 over 10 pixels. -/
def fivePointOne : ℚ := 2871044762448691 / 562949953421312


/-! ## Peak detection: loop invariant -/

theorem getD_last_concat (l : List Nat) (b : Nat) :
    (l ++ [b]).getD ((l ++ [b]).length - 1) 0 = b := by
  simp [List.getD_eq_getElem?_getD]

/-- The spacing test of `findPeaks` against the last accepted index is a test against
every accepted index, when the accepted indices increase. -/
theorem spacing_gate_iff (peaks : List Nat) (i : Nat) (hs : peaks.Pairwise (· < ·)) :
    (peaks.length = 0 ∨ (i : ℤ) - (peaks.getD (peaks.length - 1) 0 : ℤ) ≥ minDistance) ↔
      ∀ j ∈ peaks, j + 10 ≤ i := by
  rcases List.eq_nil_or_concat peaks with h | ⟨l, b, h⟩
  · subst h; simp
  · rw [List.concat_eq_append] at h
    subst h
    rw [getD_last_concat]
    rw [List.pairwise_append] at hs
    obtain ⟨_, _, hlb⟩ := hs
    simp only [minDistance]
    constructor
    · rintro (h | h)
      · simp at h
      · intro j hj
        rcases List.mem_append.1 hj with hj | hj
        · have := hlb j hj b (by simp)
          omega
        · simp at hj; omega
    · intro h
      right
      have := h b (by simp)
      omega

theorem peaksUpTo_step (signal : List ℚ) (k : Nat) (peaks : List Nat)
    (h : PeaksUpTo signal k peaks) :
    PeaksUpTo signal (k + 1) (findPeaksStep signal peaks (k + 1)) := by
  obtain ⟨hs, hm⟩ := h
  have hle : ∀ j ∈ peaks, j ≤ k := fun j hj => ((hm j).1 hj).2.1
  have hgate := spacing_gate_iff peaks (k + 1) hs
  unfold findPeaksStep
  by_cases hc : sample signal (k + 1) > sample signal (k + 1 - 1) ∧
      sample signal (k + 1) > sample signal (k + 1 + 1) ∧ sample signal (k + 1) > threshold
  · by_cases hg : peaks.length = 0 ∨
        ((k + 1 : Nat) : ℤ) - (peaks.getD (peaks.length - 1) 0 : ℤ) ≥ minDistance
    · rw [if_pos hc, if_pos hg]
      have hall := hgate.1 hg
      refine ⟨?_, ?_⟩
      · rw [List.pairwise_append]
        refine ⟨hs, by simp, ?_⟩
        intro a ha b hb
        simp at hb
        have := hle a ha
        omega
      · intro i
        simp only [List.mem_append, List.mem_singleton]
        constructor
        · rintro (hi | hi)
          · obtain ⟨h1, h2, h3, h4, h5, h6⟩ := (hm i).1 hi
            refine ⟨h1, by omega, h3, h4, h5, ?_⟩
            rintro j (hj | hj) hji
            · exact h6 j hj hji
            · omega
          · subst hi
            refine ⟨by omega, le_refl _, hc.1, hc.2.1, hc.2.2, ?_⟩
            rintro j (hj | hj) hji
            · exact hall j hj
            · omega
        · rintro ⟨h1, h2, h3, h4, h5, h6⟩
          by_cases hik : i = k + 1
          · right; exact hik
          · left
            exact (hm i).2 ⟨h1, by omega, h3, h4, h5, fun j hj hji => h6 j (Or.inl hj) hji⟩
    · rw [if_pos hc, if_neg hg]
      refine ⟨hs, ?_⟩
      intro i
      constructor
      · intro hi
        obtain ⟨h1, h2, h3, h4, h5, h6⟩ := (hm i).1 hi
        exact ⟨h1, by omega, h3, h4, h5, h6⟩
      · rintro ⟨h1, h2, h3, h4, h5, h6⟩
        by_cases hik : i = k + 1
        · subst hik
          exact absurd (hgate.2 (fun j hj => h6 j hj (by have := hle j hj; omega))) hg
        · exact (hm i).2 ⟨h1, by omega, h3, h4, h5, h6⟩
  · rw [if_neg hc]
    refine ⟨hs, ?_⟩
    intro i
    constructor
    · intro hi
      obtain ⟨h1, h2, h3, h4, h5, h6⟩ := (hm i).1 hi
      exact ⟨h1, by omega, h3, h4, h5, h6⟩
    · rintro ⟨h1, h2, h3, h4, h5, h6⟩
      by_cases hik : i = k + 1
      · subst hik
        exact absurd ⟨h3, h4, h5⟩ hc
      · exact (hm i).2 ⟨h1, by omega, h3, h4, h5, h6⟩

theorem peaksUpTo_foldl (signal : List ℚ) (k : Nat) :
    PeaksUpTo signal k ((List.range' 1 k).foldl (findPeaksStep signal) []) := by
  induction k with
  | zero =>
    refine ⟨by simp, ?_⟩
    intro i
    simp
    intro h1 h2
    omega
  | succ k ih =>
    rw [List.range'_concat, List.foldl_append]
    simp only [List.foldl_cons, List.foldl_nil]
    have := peaksUpTo_step signal k _ ih
    have e : 1 + 1 * k = k + 1 := by omega
    rwa [e]

theorem findPeaks_sorted (signal : List ℚ) : (findPeaks signal).Pairwise (· < ·) :=
  (peaksUpTo_foldl signal _).1

/-- Membership in the result of `findPeaks`, with the spacing test stated against every
accepted earlier index. -/
theorem mem_findPeaks_iff (signal : List ℚ) (i : Nat) :
    i ∈ findPeaks signal ↔
      (isCandidate signal i ∧ ∀ j ∈ findPeaks signal, j < i → j + 10 ≤ i) := by
  have h := (peaksUpTo_foldl signal (signal.length - 2)).2 i
  unfold findPeaks isCandidate
  rw [h]
  simp only [threshold]
  constructor
  · rintro ⟨h1, h2, h3, h4, h5, h6⟩
    exact ⟨⟨h1, by omega, h3, h4, h5⟩, h6⟩
  · rintro ⟨⟨h1, h2, h3, h4, h5⟩, h6⟩
    exact ⟨h1, by omega, h3, h4, h5, h6⟩

/-! ## Peak detection: claims -/

/-- In an increasing list, a spacing test against the last element below `i` is a test
against every element below `i`. -/
theorem last_below_gate_iff (peaks : List Nat) (i : Nat) (hs : peaks.Pairwise (· < ·)) :
    (peaks.filter (· < i) = [] ∨
        ∃ p, (peaks.filter (· < i)).getLast? = some p ∧ (i : ℤ) - (p : ℤ) ≥ 10) ↔
      ∀ j ∈ peaks, j < i → j + 10 ≤ i := by
  have hq : (peaks.filter (· < i)).Pairwise (· < ·) := hs.filter _
  have hmem : ∀ j, j ∈ peaks.filter (· < i) ↔ j ∈ peaks ∧ j < i := by
    intro j; simp [List.mem_filter]
  rcases List.eq_nil_or_concat (peaks.filter (· < i)) with h | ⟨l, b, h⟩
  · constructor
    · intro _ j hj hji
      have : j ∈ peaks.filter (· < i) := (hmem j).2 ⟨hj, hji⟩
      rw [h] at this
      simp at this
    · intro _; left; exact h
  · rw [List.concat_eq_append] at h
    rw [h] at hq
    rw [List.pairwise_append] at hq
    obtain ⟨_, _, hlb⟩ := hq
    have hb : b ∈ peaks ∧ b < i := (hmem b).1 (by rw [h]; simp)
    constructor
    · rintro (h0 | ⟨p, hp, hpi⟩)
      · rw [h] at h0; simp at h0
      · rw [h] at hp
        simp at hp
        subst hp
        intro j hj hji
        have hjm : j ∈ l ++ [b] := by rw [← h]; exact (hmem j).2 ⟨hj, hji⟩
        rcases List.mem_append.1 hjm with hjl | hjb
        · have := hlb j hjl b (by simp)
          omega
        · simp at hjb; omega
    · intro hall
      right
      refine ⟨b, by rw [h]; simp, ?_⟩
      have := hall b hb.1 hb.2
      omega

/-- C2: `findPeaks` returns the greedy left-to-right selection.  The result is strictly
increasing, and an index `i` is in it exactly when `1 ≤ i ≤ length - 2`, the sample at `i`
is strictly above both neighbours and above `0.3`, and either no accepted index lies
before `i` or `i` minus the last accepted index before `i` is at least 10. -/
theorem findPeaks_greedy_selection (signal : List ℚ) :
    (findPeaks signal).Pairwise (· < ·) ∧
      ∀ i : Nat, i ∈ findPeaks signal ↔
        (1 ≤ i ∧ i + 2 ≤ signal.length ∧
          sample signal i > sample signal (i - 1) ∧
          sample signal i > sample signal (i + 1) ∧
          sample signal i > 3 / 10 ∧
          ((findPeaks signal).filter (· < i) = [] ∨
            ∃ p, ((findPeaks signal).filter (· < i)).getLast? = some p ∧
              (i : ℤ) - (p : ℤ) ≥ 10)) := by
  refine ⟨findPeaks_sorted signal, fun i => ?_⟩
  rw [mem_findPeaks_iff, last_below_gate_iff _ _ (findPeaks_sorted signal)]
  unfold isCandidate
  tauto

/-- A strictly increasing list whose only member is `a` is `[a]`. -/
theorem eq_singleton_of_sorted (l : List Nat) (a : Nat) (hs : l.Pairwise (· < ·))
    (hm : ∀ i, i ∈ l ↔ i = a) : l = [a] := by
  apply List.eq_of_perm_of_sorted (r := (· < ·))
  · rw [List.perm_ext_iff_of_nodup (hs.imp (fun h => Nat.ne_of_lt h)) (by simp)]
    intro i
    simp [hm i]
  · exact hs
  · simp

/-- C3: any two distinct indices returned by `findPeaks` are at least 10 apart; and on a
signal whose qualifying local maxima are exactly the indices 5 and 12, `findPeaks`
returns `[5]`. -/
theorem findPeaks_min_spacing (signal : List ℚ) :
    (∀ a ∈ findPeaks signal, ∀ b ∈ findPeaks signal, a ≠ b → a + 10 ≤ b ∨ b + 10 ≤ a) ∧
      ((∀ i, isCandidate signal i ↔ (i = 5 ∨ i = 12)) → findPeaks signal = [5]) := by
  constructor
  · intro a ha b hb hab
    rcases Nat.lt_or_gt_of_ne hab with h | h
    · left; exact ((mem_findPeaks_iff signal b).1 hb).2 a ha h
    · right; exact ((mem_findPeaks_iff signal a).1 ha).2 b hb h
  · intro hc
    have h5 : 5 ∈ findPeaks signal := by
      rw [mem_findPeaks_iff]
      refine ⟨(hc 5).2 (Or.inl rfl), ?_⟩
      intro j hj hj5
      have := (hc j).1 ((mem_findPeaks_iff signal j).1 hj).1
      omega
    apply eq_singleton_of_sorted _ _ (findPeaks_sorted signal)
    intro i
    constructor
    · intro hi
      have hi2 := (mem_findPeaks_iff signal i).1 hi
      rcases (hc i).1 hi2.1 with h | h
      · exact h
      · subst h
        have := hi2.2 5 h5 (by decide)
        omega
    · intro hi
      subst hi
      exact h5

/-- Witness for C3.  On `twoMaxima` the accepted index is 5 and the equal maximum at 12 is
rejected; on `farMaxima` both maxima are accepted and are 11 apart. -/
theorem findPeaks_min_spacing_witness :
    ((∀ i, isCandidate twoMaxima i ↔ (i = 5 ∨ i = 12)) ∧ findPeaks twoMaxima = [5] ∧
      sample twoMaxima 5 = sample twoMaxima 12) ∧
    (2 ∈ findPeaks farMaxima ∧ 13 ∈ findPeaks farMaxima ∧ (2 + 10 ≤ 13 ∨ 13 + 10 ≤ 2)) := by
  refine ⟨?_, by decide!, by decide!,
    (findPeaks_min_spacing farMaxima).1 2 (by decide!) 13 (by decide!) (by decide)⟩
  have h : ∀ i, isCandidate twoMaxima i ↔ (i = 5 ∨ i = 12) := by
    intro i
    by_cases hi : i < 15
    · interval_cases i <;> decide!
    · constructor
      · intro hc
        have := hc.2.1
        simp [twoMaxima] at this
        omega
      · intro h; omega
  exact ⟨h, (findPeaks_min_spacing twoMaxima).2 h, by decide!⟩

/-! ## Rate estimation -/

theorem foldl_add_eq_sum (xs : List ℚ) (a : ℚ) :
    xs.foldl (fun a b => a + b) a = a + xs.sum := by
  induction xs generalizing a with
  | nil => simp
  | cons x xs ih => rw [List.foldl_cons, ih, List.sum_cons]; ring

/-- The `intervals` array of the source holds the consecutive differences. -/
theorem peakIntervals_eq (peaks : List Nat) : peakIntervals peaks = consecutiveDiffs peaks := by
  unfold peakIntervals consecutiveDiffs
  apply List.ext_getElem
  · simp
  · intro i h1 h2
    simp at h1 h2
    have e : 1 + i - 1 = i := by omega
    simp [List.getD_eq_getElem?_getD, e]
    rw [List.getElem?_eq_getElem (by omega), List.getElem?_eq_getElem (by omega)]
    simp [Nat.add_comm]

theorem avgInterval_eq (peaks : List Nat) :
    avgInterval peaks = arithmeticMean (consecutiveDiffs peaks) := by
  unfold avgInterval arithmeticMean
  rw [peakIntervals_eq, foldl_add_eq_sum, zero_add]

theorem consecutiveDiffs_pos (peaks : List Nat) (hs : peaks.Pairwise (· < ·)) :
    ∀ x ∈ consecutiveDiffs peaks, 0 < x := by
  induction peaks with
  | nil => simp [consecutiveDiffs]
  | cons a t ih =>
    cases t with
    | nil => simp [consecutiveDiffs]
    | cons b t =>
      intro x hx
      simp only [consecutiveDiffs, List.tail_cons, List.zipWith_cons_cons, List.mem_cons] at hx
      rcases hx with hx | hx
      · subst hx
        have : a < b := (List.pairwise_cons.1 hs).1 b (by simp)
        have : (a : ℚ) < (b : ℚ) := by exact_mod_cast this
        linarith
      · exact ih (List.pairwise_cons.1 hs).2 x hx

/-- The mean spacing of at least two increasing indices is positive: the division in
`calculateHeartRate` never has a zero divisor. -/
theorem arithmeticMean_diffs_pos (peaks : List Nat) (hs : peaks.Pairwise (· < ·))
    (hl : 2 ≤ peaks.length) : 0 < arithmeticMean (consecutiveDiffs peaks) := by
  have hlen : (consecutiveDiffs peaks).length = peaks.length - 1 := by
    simp [consecutiveDiffs]
  have hne : consecutiveDiffs peaks ≠ [] := by
    intro h
    rw [h] at hlen
    simp at hlen
    omega
  unfold arithmeticMean
  apply div_pos (List.sum_pos _ (consecutiveDiffs_pos peaks hs) hne)
  rw [hlen]
  have : 0 < peaks.length - 1 := by omega
  exact_mod_cast this

/-- C1: `calculateHeartRate` returns `null` exactly when the signal has fewer than 64
samples or `findPeaks` accepts fewer than 3 peaks; in every other case it returns
`(samplingRate * 60)` divided by the arithmetic mean of the differences between
consecutive accepted peak indices, and that mean is positive. -/
theorem calculateHeartRate_spec (samplingRate : ℚ) (signal : List ℚ) :
    (calculateHeartRate samplingRate signal = none ↔
        (signal.length < 64 ∨ (findPeaks signal).length < 3)) ∧
      (¬ (signal.length < 64 ∨ (findPeaks signal).length < 3) →
        calculateHeartRate samplingRate signal =
            some ((samplingRate * 60) / arithmeticMean (consecutiveDiffs (findPeaks signal))) ∧
          0 < arithmeticMean (consecutiveDiffs (findPeaks signal))) := by
  unfold calculateHeartRate
  by_cases h1 : signal.length < 64
  · simp [h1]
  · by_cases h2 : (findPeaks signal).length < 3
    · simp [h1, h2]
    · simp only [h1, h2, if_false, false_or, not_false_eq_true, true_implies, reduceCtorEq,
        false_iff, avgInterval_eq, true_and]
      exact arithmeticMean_diffs_pos _ (findPeaks_sorted signal) (by omega)

/-- Witness for C1 on the raw triangle wave: 150 samples, 7 accepted peaks 20 apart. -/
theorem calculateHeartRate_spec_witness :
    ¬ (triangle150.length < 64 ∨ (findPeaks triangle150).length < 3) ∧
      calculateHeartRate 30 triangle150 =
        some ((30 * 60) / arithmeticMean (consecutiveDiffs (findPeaks triangle150))) ∧
      0 < arithmeticMean (consecutiveDiffs (findPeaks triangle150)) :=
  ⟨by decide!, (calculateHeartRate_spec 30 triangle150).2 (by decide!)⟩

/-! ## Detrending and smoothing -/

theorem windowLoop_range' (filtered : List ℚ) (lo n : Nat) (a c : ℚ) :
    windowLoop filtered (List.range' lo n) (a, c) =
      (a + ∑ j ∈ Finset.Ico lo (lo + n), sample filtered j, c + (n : ℚ)) := by
  induction n with
  | zero => simp [windowLoop]
  | succ n ih =>
    unfold windowLoop at ih ⊢
    rw [List.range'_concat, List.foldl_append, ih]
    simp only [List.foldl_cons, List.foldl_nil, mul_one, one_mul]
    rw [← Nat.add_assoc, Finset.sum_Ico_succ_top (Nat.le_add_right lo n)]
    push_cast
    congr 1 <;> ring

theorem sample_map_sub (x : List ℚ) (m : ℚ) (j : Nat) (hj : j < x.length) :
    sample (x.map fun v => v - m) j = sample x j - m := by
  simp [sample, List.getD_eq_getElem?_getD, List.getElem?_eq_getElem hj]

theorem smoothedAt_eq (x : List ℚ) (m : ℚ) (i : Nat) (hi : i < x.length) :
    smoothedAt (x.map fun v => v - m) i = windowMean x m i := by
  unfold smoothedAt windowMean
  simp only [List.length_map, Nat.zero_max]
  rw [windowLoop_range']
  have hlo : i - 3 + (min (x.length - 1) (i + 3) + 1 - (i - 3)) =
      min (x.length - 1) (i + 3) + 1 := by omega
  have hIco : Finset.Ico (i - 3) (min (x.length - 1) (i + 3) + 1) =
      Finset.Icc (i - 3) (min (x.length - 1) (i + 3)) := by
    ext j; simp; omega
  rw [hlo, hIco, Nat.card_Icc]
  simp only [zero_add]
  congr 1
  apply Finset.sum_congr rfl
  intro j hj
  rw [Finset.mem_Icc] at hj
  exact sample_map_sub x m j (by omega)

/-- C10: `applyBandpassFilter` keeps the length; a sequence of fewer than 10 elements is
returned unchanged; otherwise, with `m` the arithmetic mean of the input, element `i` of the
result is the arithmetic mean of `x[j] - m` over `max(0, i-3) ≤ j ≤ min(length-1, i+3)`. -/
theorem applyBandpassFilter_spec (x : List ℚ) :
    (applyBandpassFilter x).length = x.length ∧
      (x.length < 10 → applyBandpassFilter x = x) ∧
      (10 ≤ x.length → ∀ i, i < x.length →
        (applyBandpassFilter x)[i]? = some (windowMean x (arithmeticMean x) i)) := by
  unfold applyBandpassFilter
  refine ⟨?_, ?_, ?_⟩
  · split <;> simp
  · intro h; simp [h]
  · intro h i hi
    have h10 : ¬ x.length < 10 := by omega
    simp only [h10, if_false, List.length_map]
    rw [List.getElem?_map, List.getElem?_range hi]
    simp only [Option.map_some']
    rw [foldl_add_eq_sum, zero_add, smoothedAt_eq _ _ _ hi]
    rfl

/-- Witness for C10: a 3-element input comes back unchanged, and element 0 of the filtered
ramp `0..9` is the mean of the first four centred samples. -/
theorem applyBandpassFilter_spec_witness :
    applyBandpassFilter [1, 2, 3] = [1, 2, 3] ∧
      (applyBandpassFilter ramp10)[0]? = some (windowMean ramp10 (arithmeticMean ramp10) 0) ∧
      (applyBandpassFilter ramp10)[0]? = some (-3 : ℚ) :=
  ⟨(applyBandpassFilter_spec [1, 2, 3]).2.1 (by decide),
    (applyBandpassFilter_spec ramp10).2.2 (by decide) 0 (by decide), by decide!⟩

/-! ## Plausibility check and history retention -/

/-- The filtered triangle wave has its peaks 20 samples apart: 90 bpm at 30 Hz. -/
theorem triangle_rate :
    calculateHeartRate ((30 : Nat) : ℚ) (applyBandpassFilter triangle150) = some 90 := by
  decide!

/-- On 150 zero samples no peak is accepted. -/
theorem flat_rate :
    calculateHeartRate ((30 : Nat) : ℚ) (applyBandpassFilter (List.replicate 150 0)) = none := by
  decide!

theorem triangleMonitor_buffered :
    triangleMonitor.samplingRate * 5 ≤ triangleMonitor.signalBuffer.length := by
  simp [triangleMonitor, Monitor.initial, triangle150]

theorem flatMonitor_buffered :
    flatMonitor.samplingRate * 5 ≤ flatMonitor.signalBuffer.length := by
  simp [flatMonitor, Monitor.initial]

theorem mathRound_ninety : mathRound 90 = 90 := by
  unfold mathRound
  rw [Int.floor_eq_iff]
  norm_num

/-- State after an accepted estimate `bpm` at clock reading `clock`. -/
theorem processSignalData_accept (st : Monitor) (clock bpm : ℚ)
    (hbuf : st.samplingRate * 5 ≤ st.signalBuffer.length)
    (hr : calculateHeartRate st.samplingRate (applyBandpassFilter st.signalBuffer) = some bpm)
    (h45 : 45 ≤ bpm) (h180 : bpm ≤ 180) :
    processSignalData st clock =
      { st with
        heartRateValue := .bpm (mathRound bpm)
        heartRateHistory :=
          (st.heartRateHistory ++
            [({ time := elapsed st clock, value := bpm } : HeartRateEstimate)]).filter
              fun entry => elapsed st clock - entry.time ≤ 60
        hrStatus := .measuring } := by
  unfold processSignalData
  have h0 : bpm ≠ 0 := by
    intro h
    rw [h] at h45
    norm_num at h45
  rw [if_neg (by omega)]
  simp only [hr]
  rw [if_pos ⟨h0, h45, h180⟩]

/-- State after an estimate that is missing or outside `[45, 180]`. -/
theorem processSignalData_reject (st : Monitor) (clock : ℚ)
    (hbuf : st.samplingRate * 5 ≤ st.signalBuffer.length)
    (hr : ∀ bpm, calculateHeartRate st.samplingRate (applyBandpassFilter st.signalBuffer) =
      some bpm → ¬ (45 ≤ bpm ∧ bpm ≤ 180)) :
    processSignalData st clock = { st with hrStatus := .poorSignal } := by
  unfold processSignalData
  rw [if_neg (by omega)]
  cases hc : calculateHeartRate (st.samplingRate : ℚ) (applyBandpassFilter st.signalBuffer) with
  | none => simp only [hc]
  | some bpm =>
    have := hr bpm hc
    simp only [hc]
    rw [if_neg (fun h => this ⟨h.2.1, h.2.2⟩)]

/-- C5: on a buffer of at least `samplingRate * 5` samples, `processSignalData` shows the
rounded bpm and appends the estimate to the (pruned) history when `calculateHeartRate`
returns an estimate with `45 ≤ bpm ≤ 180`; on any other outcome the display and
`heartRateHistory` are unchanged and the status is set to poor signal. -/
theorem processSignalData_plausibility (st : Monitor) (clock : ℚ)
    (hbuf : st.samplingRate * 5 ≤ st.signalBuffer.length) :
    (∀ bpm, calculateHeartRate st.samplingRate (applyBandpassFilter st.signalBuffer) = some bpm →
        45 ≤ bpm → bpm ≤ 180 →
        processSignalData st clock =
          { st with
            heartRateValue := .bpm (mathRound bpm)
            heartRateHistory :=
              (st.heartRateHistory ++
                [({ time := elapsed st clock, value := bpm } : HeartRateEstimate)]).filter
                  fun entry => elapsed st clock - entry.time ≤ 60
            hrStatus := .measuring }) ∧
      ((¬ ∃ bpm, calculateHeartRate st.samplingRate (applyBandpassFilter st.signalBuffer) =
            some bpm ∧ 45 ≤ bpm ∧ bpm ≤ 180) →
        processSignalData st clock = { st with hrStatus := .poorSignal } ∧
          (processSignalData st clock).heartRateHistory = st.heartRateHistory ∧
          (processSignalData st clock).heartRateValue = st.heartRateValue ∧
          (processSignalData st clock).hrStatus = .poorSignal) := by
  refine ⟨fun bpm hr h45 h180 => processSignalData_accept st clock bpm hbuf hr h45 h180, ?_⟩
  intro hno
  have h := processSignalData_reject st clock hbuf
    (fun bpm hr hp => hno ⟨bpm, hr, hp.1, hp.2⟩)
  rw [h]
  exact ⟨rfl, rfl, rfl, rfl⟩

/-- Witness for C5: the triangle buffer yields 90 bpm, which is shown and appended; the
flat buffer yields no estimate, the history stays as it was and the status is poor signal. -/
theorem processSignalData_plausibility_witness :
    (triangleMonitor.samplingRate * 5 ≤ triangleMonitor.signalBuffer.length ∧
      processSignalData triangleMonitor 5000 =
        { triangleMonitor with
          heartRateValue := .bpm (mathRound 90)
          heartRateHistory :=
            (triangleMonitor.heartRateHistory ++
              [({ time := elapsed triangleMonitor 5000, value := 90 } : HeartRateEstimate)]).filter
                fun entry => elapsed triangleMonitor 5000 - entry.time ≤ 60
          hrStatus := .measuring }) ∧
      (flatMonitor.samplingRate * 5 ≤ flatMonitor.signalBuffer.length ∧
        (processSignalData flatMonitor 5000).heartRateHistory = flatMonitor.heartRateHistory ∧
        (processSignalData flatMonitor 5000).hrStatus = .poorSignal) := by
  have hflat : ¬ ∃ bpm, calculateHeartRate flatMonitor.samplingRate
      (applyBandpassFilter flatMonitor.signalBuffer) = some bpm ∧ 45 ≤ bpm ∧ bpm ≤ 180 := by
    rintro ⟨bpm, h, _⟩
    have e : calculateHeartRate flatMonitor.samplingRate
        (applyBandpassFilter flatMonitor.signalBuffer) = none := flat_rate
    rw [e] at h
    exact Option.noConfusion h
  have h2 := (processSignalData_plausibility flatMonitor 5000 flatMonitor_buffered).2 hflat
  exact ⟨⟨triangleMonitor_buffered,
    (processSignalData_plausibility triangleMonitor 5000 triangleMonitor_buffered).1 90
      triangle_rate (by norm_num) (by norm_num)⟩, flatMonitor_buffered, h2.2.1, h2.2.2.2⟩

/-- C6: after a successful estimation at elapsed time `now`, `heartRateHistory` is the
previous history followed by the new entry, filtered in order to the entries with
`now - entry.time ≤ 60`; every retained entry satisfies that bound and the new entry is
the last element. -/
theorem heartRateHistory_retention (st : Monitor) (clock bpm : ℚ)
    (hbuf : st.samplingRate * 5 ≤ st.signalBuffer.length)
    (hr : calculateHeartRate st.samplingRate (applyBandpassFilter st.signalBuffer) = some bpm)
    (h45 : 45 ≤ bpm) (h180 : bpm ≤ 180) :
    (processSignalData st clock).heartRateHistory =
        (st.heartRateHistory ++
          [({ time := elapsed st clock, value := bpm } : HeartRateEstimate)]).filter
            (fun entry => elapsed st clock - entry.time ≤ 60) ∧
      (∀ entry ∈ (processSignalData st clock).heartRateHistory,
        elapsed st clock - entry.time ≤ 60) ∧
      (processSignalData st clock).heartRateHistory.getLast? =
        some { time := elapsed st clock, value := bpm } := by
  rw [processSignalData_accept st clock bpm hbuf hr h45 h180]
  refine ⟨rfl, ?_, ?_⟩
  · intro entry he
    simpa using (List.mem_filter.1 he).2
  · simp [List.filter_append]

/-- Witness for C6: previous entries at `t = 0` and `t = 30`, a new 90 bpm entry at
`now = 61`; the entries at `t = 30` and `t = 61` remain. -/
theorem heartRateHistory_retention_witness :
    triangleMonitor.heartRateHistory = [{ time := 0, value := 72 }, { time := 30, value := 75 }] ∧
      elapsed triangleMonitor 61000 = 61 ∧
      (processSignalData triangleMonitor 61000).heartRateHistory =
        [{ time := 30, value := 75 }, { time := 61, value := 90 }] := by
  have h := heartRateHistory_retention triangleMonitor 61000 90 triangleMonitor_buffered
    triangle_rate (by norm_num) (by norm_num)
  exact ⟨rfl, by decide!, h.1.trans (by decide!)⟩

/-- C4: end to end on the 150-sample triangle wave (one peak every 20 samples, amplitude
1) at 30 Hz.  Filtering then rate estimation gives 90 bpm, which lies in `[45, 180]`;
`processSignalData` shows 90, sets the status to measuring and pushes one entry
`(now, 90)` onto the history before pruning, so a history that was empty holds exactly
that entry. -/
theorem triangle_end_to_end (st : Monitor) (clock : ℚ) :
    calculateHeartRate 30 (applyBandpassFilter triangle150) = some 90 ∧
      ((45 : ℚ) ≤ 90 ∧ (90 : ℚ) ≤ 180) ∧
      processSignalData { st with samplingRate := 30, signalBuffer := triangle150 } clock =
        { st with
          samplingRate := 30
          signalBuffer := triangle150
          heartRateValue := .bpm 90
          hrStatus := .measuring
          heartRateHistory :=
            (st.heartRateHistory ++
              [({ time := elapsed st clock, value := 90 } : HeartRateEstimate)]).filter
                fun entry => elapsed st clock - entry.time ≤ 60 } ∧
      (processSignalData
          { st with samplingRate := 30, signalBuffer := triangle150, heartRateHistory := [] }
          clock).heartRateHistory = [{ time := elapsed st clock, value := 90 }] := by
  have hrate : calculateHeartRate 30 (applyBandpassFilter triangle150) = some 90 := by
    have := triangle_rate
    simpa using this
  refine ⟨hrate, ⟨by norm_num, by norm_num⟩, ?_, ?_⟩
  · rw [processSignalData_accept { st with samplingRate := 30, signalBuffer := triangle150 }
      clock 90 (by simp [triangle150]) triangle_rate (by norm_num) (by norm_num),
      mathRound_ninety]
    rfl
  · rw [processSignalData_accept
      { st with samplingRate := 30, signalBuffer := triangle150, heartRateHistory := [] }
      clock 90 (by simp [triangle150]) triangle_rate (by norm_num) (by norm_num)]
    simp [elapsed]

/-! ## Signal buffer -/

theorem processSignalData_signalBuffer (st : Monitor) (clock : ℚ) :
    (processSignalData st clock).signalBuffer = st.signalBuffer := by
  unfold processSignalData
  split
  · rfl
  · simp only []
    split
    · split <;> rfl
    · rfl

theorem processSignalData_timeBuffer (st : Monitor) (clock : ℚ) :
    (processSignalData st clock).timeBuffer = st.timeBuffer := by
  unfold processSignalData
  split
  · rfl
  · simp only []
    split
    · split <;> rfl
    · rfl

theorem processSignalData_windowSize (st : Monitor) (clock : ℚ) :
    (processSignalData st clock).windowSize = st.windowSize := by
  unfold processSignalData
  split
  · rfl
  · simp only []
    split
    · split <;> rfl
    · rfl

/-- Buffer contents after the storing block: push, then drop the head when too long. -/
theorem ingestSample_signalBuffer (st : Monitor) (v c1 c2 : ℚ) :
    (ingestSample st v c1 c2).signalBuffer =
      if (st.signalBuffer ++ [v]).length > st.windowSize then (st.signalBuffer ++ [v]).tail
      else st.signalBuffer ++ [v] := by
  unfold ingestSample
  simp only []
  split_ifs <;> simp only [processSignalData_signalBuffer]

theorem ingestSample_timeBuffer (st : Monitor) (v c1 c2 : ℚ) :
    (ingestSample st v c1 c2).timeBuffer =
      if (st.signalBuffer ++ [v]).length > st.windowSize then
        (st.timeBuffer ++ [elapsed st c1]).tail
      else st.timeBuffer ++ [elapsed st c1] := by
  unfold ingestSample
  simp only []
  split_ifs <;> simp only [processSignalData_timeBuffer]

theorem ingestSample_windowSize (st : Monitor) (v c1 c2 : ℚ) :
    (ingestSample st v c1 c2).windowSize = st.windowSize := by
  unfold ingestSample
  simp only []
  split_ifs <;> simp only [processSignalData_windowSize]

/-- From a buffer within capacity, storing samples keeps the last `windowSize` of them. -/
theorem ingestAll_signalBuffer (samples : List StoredSample) (st : Monitor)
    (h : st.signalBuffer.length ≤ st.windowSize) :
    (ingestAll st samples).signalBuffer =
        (st.signalBuffer ++ samples.map (·.value)).drop
          ((st.signalBuffer ++ samples.map (·.value)).length - st.windowSize) ∧
      (ingestAll st samples).windowSize = st.windowSize := by
  induction samples generalizing st with
  | nil =>
    simp only [ingestAll, List.foldl_nil, List.map_nil, List.append_nil, and_true]
    rw [Nat.sub_eq_zero_of_le h, List.drop_zero]
  | cons x xs ih =>
    have hw := ingestSample_windowSize st x.value x.clockSample x.clockEstimate
    have hb := ingestSample_signalBuffer st x.value x.clockSample x.clockEstimate
    have hlen : (ingestSample st x.value x.clockSample x.clockEstimate).signalBuffer.length ≤
        (ingestSample st x.value x.clockSample x.clockEstimate).windowSize := by
      rw [hw, hb]
      split_ifs with hc
      · simp at hc ⊢; omega
      · simp at hc ⊢; omega
    obtain ⟨ih1, ih2⟩ := ih _ hlen
    unfold ingestAll at ih1 ih2 ⊢
    rw [List.foldl_cons, ih1, ih2, hw, hb]
    refine ⟨?_, rfl⟩
    simp only [List.map_cons]
    split_ifs with hc
    · simp only [List.length_append, List.length_singleton] at hc
      have e : st.signalBuffer.length = st.windowSize := by omega
      rw [← List.drop_one, ← List.drop_append_of_le_length (by simp),
        List.drop_drop, List.append_assoc, List.singleton_append]
      congr 1
      simp only [List.length_append, List.length_drop, List.length_singleton, List.length_cons,
        List.length_map]
      omega
    · rw [List.append_assoc, List.singleton_append]

/-- A frame either pushes nothing and leaves both buffers alone, or runs the storing block
on a state with the same buffers, clock origin and capacity. -/
theorem processFrame_record (st : Monitor) (inp : FrameInput) :
    (recordedPair st (.frame inp) = none ∧
        (processFrame st inp).signalBuffer = st.signalBuffer ∧
        (processFrame st inp).timeBuffer = st.timeBuffer ∧
        (processFrame st inp).windowSize = st.windowSize) ∨
      ∃ v st', processFrame st inp = ingestSample st' v inp.clockSample inp.clockEstimate ∧
        recordedPair st (.frame inp) = some (v, elapsed st inp.clockSample) ∧
        st'.signalBuffer = st.signalBuffer ∧ st'.timeBuffer = st.timeBuffer ∧
        elapsed st' inp.clockSample = elapsed st inp.clockSample ∧
        st'.windowSize = st.windowSize := by
  obtain ⟨isM, pa, sr, ws, sb, tb, hh, stt, roi, fd, fc, hs, hd⟩ := st
  obtain ⟨face, sv, c1, c2⟩ := inp
  by_cases hpar : (fc + 1) % 2 = 0
  · cases isM <;> cases pa <;> cases sv <;> cases face <;> cases fd <;> cases roi <;>
      simp [processFrame, recordedPair, detectFace, hpar]
    all_goals exact ⟨_, _, rfl, rfl, rfl, rfl, rfl, rfl⟩
  · left
    cases isM <;> cases pa <;> simp [processFrame, recordedPair, hpar]

/-- Pushing onto the last `W` elements and dropping the head when the result is longer
than `W` gives the last `W` elements of the extended list. -/
theorem drop_push (L : List ℚ) (v : ℚ) (W : Nat) :
    (if (L.drop (L.length - W) ++ [v]).length > W then (L.drop (L.length - W) ++ [v]).tail
      else L.drop (L.length - W) ++ [v]) = (L ++ [v]).drop ((L ++ [v]).length - W) := by
  simp only [List.length_append, List.length_drop, List.length_singleton]
  split_ifs with hc
  · rw [← List.drop_one, ← List.drop_append_of_le_length (by simp), List.drop_drop]
    congr 1
    omega
  · have e : L.length - W = 0 := by omega
    have e2 : L.length + 1 - W = 0 := by omega
    rw [e, e2, List.drop_zero, List.drop_zero]

/-- Invariant of frame processing at a fixed capacity: the buffer is the last `windowSize`
values of the log. -/
theorem framesLogged_fifo (frames : List FrameInput) (s : Monitor × List (ℚ × ℚ))
    (h : s.1.signalBuffer = (s.2.map Prod.fst).drop (s.2.length - s.1.windowSize)) :
    (framesLogged s frames).1 = frames.foldl processFrame s.1 ∧
      (framesLogged s frames).1.windowSize = s.1.windowSize ∧
      (framesLogged s frames).1.signalBuffer =
        ((framesLogged s frames).2.map Prod.fst).drop
          ((framesLogged s frames).2.length - s.1.windowSize) := by
  induction frames generalizing s with
  | nil => exact ⟨rfl, rfl, h⟩
  | cons inp rest ih =>
    obtain ⟨st, log⟩ := s
    simp only at h
    have hstep : (stepLogged (st, log) (.frame inp)).1.windowSize = st.windowSize ∧
        (stepLogged (st, log) (.frame inp)).1.signalBuffer =
          ((stepLogged (st, log) (.frame inp)).2.map Prod.fst).drop
            ((stepLogged (st, log) (.frame inp)).2.length - st.windowSize) := by
      simp only [stepLogged, step, resetsBuffers, Bool.false_eq_true, if_false]
      rcases processFrame_record st inp with ⟨hr, hsb, _, hw⟩ | ⟨v, st', hpf, hr, hsb, _, _, hw⟩
      · rw [hr, hsb, hw]
        simpa using h
      · rw [hr, hpf, ingestSample_windowSize, ingestSample_signalBuffer, hsb, hw, h]
        refine ⟨rfl, ?_⟩
        have := drop_push (log.map Prod.fst) v st.windowSize
        simpa using this
    obtain ⟨ih1, ih2, ih3⟩ := ih (stepLogged (st, log) (.frame inp)) (by rw [hstep.1]; exact hstep.2)
    unfold framesLogged at ih1 ih2 ih3 ⊢
    rw [List.foldl_cons, List.foldl_cons]
    rw [hstep.1] at ih2 ih3
    exact ⟨ih1, ih2, ih3⟩

/-- C7: for a fixed capacity `W`, after `n` samples are stored by `processFrame` into an
empty buffer, `signalBuffer` is the last `min(n, W)` stored samples in arrival order, and
the stored samples are the `n - min(n, W)` oldest ones followed by the buffer.  Stated for
the storing block run once per sample, and for any sequence of `processFrame` calls with
the stored samples read off the log. -/
theorem signalBuffer_fifo (st : Monitor) (W : Nat) :
    (∀ samples : List StoredSample,
      (ingestAll { st with windowSize := W, signalBuffer := [], timeBuffer := [] }
          samples).signalBuffer =
          (samples.map (·.value)).drop (samples.length - min samples.length W) ∧
        (ingestAll { st with windowSize := W, signalBuffer := [], timeBuffer := [] }
          samples).signalBuffer.length = min samples.length W ∧
        samples.map (·.value) =
          (samples.map (·.value)).take (samples.length - min samples.length W) ++
            (ingestAll { st with windowSize := W, signalBuffer := [], timeBuffer := [] }
              samples).signalBuffer) ∧
      (∀ frames : List FrameInput,
        (framesLogged ({ st with windowSize := W, signalBuffer := [], timeBuffer := [] }, [])
            frames).1 =
          frames.foldl processFrame
            { st with windowSize := W, signalBuffer := [], timeBuffer := [] } ∧
        (frames.foldl processFrame
            { st with windowSize := W, signalBuffer := [], timeBuffer := [] }).signalBuffer =
          ((framesLogged ({ st with windowSize := W, signalBuffer := [], timeBuffer := [] }, [])
              frames).2.map Prod.fst).drop
            ((framesLogged ({ st with windowSize := W, signalBuffer := [], timeBuffer := [] }, [])
                frames).2.length -
              min (framesLogged
                ({ st with windowSize := W, signalBuffer := [], timeBuffer := [] }, [])
                frames).2.length W)) := by
  constructor
  · intro samples
    have h := (ingestAll_signalBuffer samples
      { st with windowSize := W, signalBuffer := [], timeBuffer := [] } (by simp)).1
    simp only [List.nil_append, List.length_map] at h
    have e : samples.length - min samples.length W = samples.length - W := by omega
    rw [h, e]
    refine ⟨rfl, ?_, ?_⟩
    · simp only [List.length_drop, List.length_map]
      omega
    · rw [List.take_append_drop]
  · intro frames
    obtain ⟨h1, _, h3⟩ := framesLogged_fifo frames
      ({ st with windowSize := W, signalBuffer := [], timeBuffer := [] }, []) (by simp)
    refine ⟨h1, ?_⟩
    rw [← h1, h3]
    congr 1
    simp only []
    omega

/-! ## Buffer capacity under window changes, and alignment of the two buffers -/

/-- C8 fails on the code.  After monitoring starts, 151 samples are stored and the window
is then set to 5 seconds, `signalBuffer` holds 151 samples while `windowSize` is 150; two
more frames store one more sample and evict one, so the excess stays. -/
theorem windowSize_shrink_overflow :
    (run shrinkTrace).signalBuffer.length = 151 ∧ (run shrinkTrace).windowSize = 150 ∧
      ¬ ((run shrinkTrace).signalBuffer.length ≤ (run shrinkTrace).windowSize) ∧
      (run (shrinkTrace ++ [Event.frame validFrame, Event.frame validFrame])).signalBuffer.length
        = 151 := by
  decide!

theorem aligned_step (s : Monitor × List (ℚ × ℚ)) (ev : Event) (h : Aligned s) :
    Aligned (stepLogged s ev) := by
  obtain ⟨st, log⟩ := s
  obtain ⟨hlen, hsuf⟩ := h
  simp only at hlen hsuf
  cases ev with
  | start cameraReady clock =>
    unfold Aligned stepLogged
    simp only [step, startMonitoring, resetsBuffers, recordedPair]
    cases hm : st.isMonitoring <;> cases cameraReady <;> simp [hlen, hsuf]
  | stop =>
    unfold Aligned stepLogged
    simpa [step, stopMonitoring, resetsBuffers, recordedPair] using ⟨hlen, hsuf⟩
  | calibrate clock =>
    unfold Aligned stepLogged
    simp only [step, calibrate, resetsBuffers, recordedPair]
    cases hm : st.isMonitoring <;> simp [hlen, hsuf]
  | calibrateTimeout =>
    unfold Aligned stepLogged
    simp only [step, calibrateTimeout, resetsBuffers, recordedPair]
    cases hm : st.isMonitoring <;> simp [hlen, hsuf]
  | setWindowSize seconds =>
    unfold Aligned stepLogged
    simpa [step, setWindowSize, resetsBuffers, recordedPair] using ⟨hlen, hsuf⟩
  | frame inp =>
    unfold Aligned stepLogged
    simp only [step, resetsBuffers, Bool.false_eq_true, if_false]
    rcases processFrame_record st inp with ⟨hr, hsb, htb, _⟩ | ⟨v, st', hpf, hr, hsb, htb, hel, _⟩
    · rw [hr, hsb, htb]
      simpa using ⟨hlen, hsuf⟩
    · rw [hr, hpf, ingestSample_signalBuffer, ingestSample_timeBuffer, hsb, htb, hel]
      have hz : List.zip (st.signalBuffer ++ [v]) (st.timeBuffer ++ [elapsed st inp.clockSample]) =
          List.zip st.signalBuffer st.timeBuffer ++ [(v, elapsed st inp.clockSample)] := by
        rw [List.zip_append hlen]; rfl
      have hsuf' : List.zip st.signalBuffer st.timeBuffer ++ [(v, elapsed st inp.clockSample)] <:+
          log ++ [(v, elapsed st inp.clockSample)] := by
        obtain ⟨t, ht⟩ := hsuf
        exact ⟨t, by rw [← ht, List.append_assoc]⟩
      split_ifs with hc
      · refine ⟨by simp [hlen], ?_⟩
        rw [← List.tail_zip, hz]
        exact (List.tail_suffix _).trans hsuf'
      · refine ⟨by simp [hlen], ?_⟩
        rw [hz]
        exact hsuf'

theorem aligned_foldl (events : List Event) (s : Monitor × List (ℚ × ℚ)) (h : Aligned s) :
    Aligned (events.foldl stepLogged s) := by
  induction events generalizing s with
  | nil => exact h
  | cons ev evs ih => exact ih _ (aligned_step s ev h)

theorem foldl_stepLogged_fst (events : List Event) (s : Monitor × List (ℚ × ℚ)) :
    (events.foldl stepLogged s).1 = events.foldl step s.1 := by
  induction events generalizing s with
  | nil => rfl
  | cons ev evs ih => rw [List.foldl_cons, ih]; rfl

/-- C9: in every reachable state `signalBuffer` and `timeBuffer` have the same length, and
read as pairs they are the last `length` entries of the log of (sample, timestamp) pairs
recorded since the last reset: `timeBuffer[k]` is the timestamp recorded together with
`signalBuffer[k]`. -/
theorem buffers_aligned (events : List Event) :
    (runLogged events).1 = run events ∧
      (run events).signalBuffer.length = (run events).timeBuffer.length ∧
      List.zip (run events).signalBuffer (run events).timeBuffer <:+ (runLogged events).2 ∧
      ∀ k, k < (run events).signalBuffer.length →
        (runLogged events).2[(runLogged events).2.length - (run events).signalBuffer.length + k]? =
          some (sample (run events).signalBuffer k, sample (run events).timeBuffer k) := by
  have h1 : (runLogged events).1 = run events := foldl_stepLogged_fst events _
  have h2 : Aligned (runLogged events) :=
    aligned_foldl events (Monitor.initial, []) ⟨rfl, by simp [Monitor.initial]⟩
  unfold Aligned at h2
  rw [h1] at h2
  refine ⟨h1, h2.1, h2.2, ?_⟩
  intro k hk
  obtain ⟨t, ht⟩ := h2.2
  have hzl : (List.zip (run events).signalBuffer (run events).timeBuffer).length =
      (run events).signalBuffer.length := by
    simp [List.length_zip, h2.1]
  rw [← ht, List.length_append, hzl, Nat.add_sub_cancel, List.getElem?_append_right (by omega)]
  have e : t.length + k - t.length = k := by omega
  rw [e, List.getElem?_eq_getElem (by omega)]
  simp [sample, List.getD_eq_getElem?_getD, List.getElem?_eq_getElem hk,
    List.getElem?_eq_getElem (h2.1 ▸ hk)]

/-- Witness for C9: after `twoSampleTrace` the buffers hold the samples 5 and 7 with the
timestamps 2 and 3 recorded with them. -/
theorem buffers_aligned_witness :
    (run twoSampleTrace).signalBuffer = [5, 7] ∧ (run twoSampleTrace).timeBuffer = [2, 3] ∧
      (runLogged twoSampleTrace).2 = [(5, 2), (7, 3)] ∧
      (runLogged twoSampleTrace).2[(runLogged twoSampleTrace).2.length -
          (run twoSampleTrace).signalBuffer.length + 1]? =
        some (sample (run twoSampleTrace).signalBuffer 1, sample (run twoSampleTrace).timeBuffer 1) :=
  ⟨by decide!, by decide!, by decide!, (buffers_aligned twoSampleTrace).2.2.2 1 (by decide!)⟩

/-! ## Quality score: range -/

/-- C11: for every buffer content and whatever `Math.sqrt` returns, `calculateConfidence`
is in the closed interval `[0, 100]`. -/
theorem calculateConfidence_bounds (sqrt : ℚ → ℚ) (signalBuffer : List ℚ) :
    0 ≤ calculateConfidence sqrt signalBuffer ∧ calculateConfidence sqrt signalBuffer ≤ 100 := by
  unfold calculateConfidence
  simp only []
  split_ifs
  · norm_num
  · norm_num
  · norm_num
  · exact ⟨le_max_left _ _, max_le (by norm_num) (min_le_left _ _)⟩

/-- The range `[0, 100]` also holds of the binary64 version whenever it yields a finite
value. -/
theorem calculateConfidence_binary64_range (signalBuffer : List ℚ) (v : ℚ)
    (h : Binary64.calculateConfidence signalBuffer = some v) : 0 ≤ v ∧ v ≤ 100 := by
  unfold Binary64.calculateConfidence at h
  split_ifs at h with h30
  · simp only [Option.some.injEq] at h
    subst h
    norm_num
  · simp only [Option.bind_eq_bind, Option.bind_eq_some] at h
    obtain ⟨mean, _, sq, _, variance, _, h⟩ := h
    split_ifs at h with hv hm
    · simp only [Option.some.injEq] at h
      subst h
      norm_num
    · simp only [Option.some.injEq] at h
      subst h
      norm_num
    · simp only [Option.bind_eq_some, Option.some.injEq] at h
      obtain ⟨s, _, cv, _, t, _, u, _, h⟩ := h
      subst h
      exact ⟨le_max_left _ _, max_le (by norm_num) (min_le_left _ _)⟩


/-! ## Calibration and the no-estimate path -/

theorem run_append_event (events : List Event) (ev : Event) :
    run (events ++ [ev]) = step (run events) ev := by
  simp [run, List.foldl_append]

/-- After `triangleTrace` the monitor is running and its history holds one entry. -/
theorem triangleTrace_history :
    (run triangleTrace).isMonitoring = true ∧
      (run triangleTrace).heartRateHistory = [{ time := 5, value := 90 }] := by
  decide!

/-- C14 fails on the code.  After `triangleTrace` the monitor is running with one history
entry.  Calibrating then empties `signalBuffer` and `timeBuffer`, moves the clock origin
and keeps the monitoring flag, but `heartRateHistory` still holds the entry; stopping and
starting again, the sibling reset, does empty the history. -/
theorem calibrate_keeps_history :
    (run triangleTrace).isMonitoring = true ∧
      (run triangleTrace).heartRateHistory = [{ time := 5, value := 90 }] ∧
      (run (triangleTrace ++ [Event.calibrate 9000])).signalBuffer = [] ∧
      (run (triangleTrace ++ [Event.calibrate 9000])).timeBuffer = [] ∧
      (run (triangleTrace ++ [Event.calibrate 9000])).startTime = some 9000 ∧
      (run (triangleTrace ++ [Event.calibrate 9000])).isMonitoring = true ∧
      (run (triangleTrace ++ [Event.calibrate 9000])).heartRateHistory =
        [{ time := 5, value := 90 }] ∧
      (run (triangleTrace ++ [Event.calibrate 9000])).heartRateHistory ≠ [] ∧
      (startMonitoring (stopMonitoring (run triangleTrace)) true 9000).heartRateHistory = [] := by
  obtain ⟨hm, hh⟩ := triangleTrace_history
  rw [run_append_event]
  simp [step, calibrate, startMonitoring, stopMonitoring, hm, hh]

/-- With fewer than 64 filtered samples or fewer than 3 accepted peaks there is no estimate. -/
theorem calculateHeartRate_none_of_insufficient (samplingRate : ℚ) (signal : List ℚ)
    (h : signal.length < 64 ∨ (findPeaks signal).length < 3) :
    calculateHeartRate samplingRate signal = none := by
  unfold calculateHeartRate
  rcases h with h | h
  · rw [if_pos h]
  · simp only [h, if_true, ite_self]

/-- Counterexample to C15 as stated: on 150 zero samples no peak is accepted, there is no
estimate, and the status changes from measuring to poor signal. -/
theorem insufficient_peaks_sets_poor_signal :
    flatMeasuring.samplingRate * 5 ≤ flatMeasuring.signalBuffer.length ∧
      (findPeaks (applyBandpassFilter flatMeasuring.signalBuffer)).length < 3 ∧
      calculateHeartRate flatMeasuring.samplingRate
        (applyBandpassFilter flatMeasuring.signalBuffer) = none ∧
      flatMeasuring.hrStatus = .measuring ∧
      (processSignalData flatMeasuring 5000).hrStatus = .poorSignal ∧
      (processSignalData flatMeasuring 5000).hrStatus ≠ flatMeasuring.hrStatus := by
  decide!

/-- C15 as amended: below 5 seconds of samples `processSignalData` changes nothing; with
5 seconds buffered and no estimate because the filtered signal is below 64 samples or fewer
than 3 peaks are accepted, `heartRateHistory` and the displayed bpm stay as they were and
the status is set to poor signal. -/
theorem processSignalData_no_estimate (st : Monitor) (clock : ℚ) :
    (st.signalBuffer.length < st.samplingRate * 5 → processSignalData st clock = st) ∧
      (st.samplingRate * 5 ≤ st.signalBuffer.length →
        ((applyBandpassFilter st.signalBuffer).length < 64 ∨
          (findPeaks (applyBandpassFilter st.signalBuffer)).length < 3) →
        processSignalData st clock = { st with hrStatus := .poorSignal } ∧
          (processSignalData st clock).heartRateHistory = st.heartRateHistory ∧
          (processSignalData st clock).heartRateValue = st.heartRateValue ∧
          (processSignalData st clock).hrStatus = .poorSignal) := by
  constructor
  · intro h
    unfold processSignalData
    rw [if_pos h]
  · intro hbuf hins
    have hnone := calculateHeartRate_none_of_insufficient st.samplingRate _ hins
    have h := processSignalData_reject st clock hbuf (fun bpm hr => by
      rw [hnone] at hr
      exact Option.noConfusion hr)
    rw [h]
    exact ⟨rfl, rfl, rfl, rfl⟩

/-- Witness for the amended C15: 10 buffered samples leave the state as it was; 150 zero
samples keep the history and set the status to poor signal. -/
theorem processSignalData_no_estimate_witness :
    (shortMonitor.signalBuffer.length < shortMonitor.samplingRate * 5 ∧
      processSignalData shortMonitor 5000 = shortMonitor) ∧
    (flatMeasuring.samplingRate * 5 ≤ flatMeasuring.signalBuffer.length ∧
      (findPeaks (applyBandpassFilter flatMeasuring.signalBuffer)).length < 3 ∧
      (processSignalData flatMeasuring 5000).heartRateHistory = flatMeasuring.heartRateHistory ∧
      (processSignalData flatMeasuring 5000).hrStatus = .poorSignal) := by
  have hshort : shortMonitor.signalBuffer.length < shortMonitor.samplingRate * 5 := by decide
  have hbuf : flatMeasuring.samplingRate * 5 ≤ flatMeasuring.signalBuffer.length := by
    simp [flatMeasuring, flatMonitor, Monitor.initial]
  have hpeaks : (findPeaks (applyBandpassFilter flatMeasuring.signalBuffer)).length < 3 := by
    decide!
  have h := (processSignalData_no_estimate flatMeasuring 5000).2 hbuf (Or.inr hpeaks)
  exact ⟨⟨hshort, (processSignalData_no_estimate shortMonitor 5000).1 hshort⟩,
    hbuf, hpeaks, h.2.1, h.2.2.2⟩

/-! ## Bounds and closed form of the rate estimate -/

/-- Accepted peaks are pairwise at least 10 apart, in order. -/
theorem findPeaks_spaced (signal : List ℚ) :
    (findPeaks signal).Pairwise (fun a b => a + 10 ≤ b) :=
  (findPeaks_sorted signal).imp_of_mem fun {a b} ha hb hab =>
    ((mem_findPeaks_iff signal b).1 hb).2 a ha hab

theorem consecutiveDiffs_ge (peaks : List Nat) (hs : peaks.Pairwise (fun a b => a + 10 ≤ b)) :
    ∀ x ∈ consecutiveDiffs peaks, (10 : ℚ) ≤ x := by
  induction peaks with
  | nil => simp [consecutiveDiffs]
  | cons a t ih =>
    cases t with
    | nil => simp [consecutiveDiffs]
    | cons b t =>
      intro x hx
      simp only [consecutiveDiffs, List.tail_cons, List.zipWith_cons_cons, List.mem_cons] at hx
      rcases hx with hx | hx
      · subst hx
        have : a + 10 ≤ b := (List.pairwise_cons.1 hs).1 b (by simp)
        have : ((a + 10 : Nat) : ℚ) ≤ (b : ℚ) := by exact_mod_cast this
        push_cast at this
        linarith
      · exact ih (List.pairwise_cons.1 hs).2 x hx

theorem sum_ge_of_forall_ge (xs : List ℚ) (d : ℚ) (h : ∀ x ∈ xs, d ≤ x) :
    d * (xs.length : ℚ) ≤ xs.sum := by
  induction xs with
  | nil => simp
  | cons x xs ih =>
    have h1 := h x (by simp)
    have h2 := ih fun y hy => h y (by simp [hy])
    rw [List.sum_cons, List.length_cons]
    push_cast
    linarith

/-- The mean spacing of at least two accepted peaks is at least 10. -/
theorem arithmeticMean_diffs_ge (signal : List ℚ) (hl : 2 ≤ (findPeaks signal).length) :
    10 ≤ arithmeticMean (consecutiveDiffs (findPeaks signal)) := by
  have hlen : (consecutiveDiffs (findPeaks signal)).length = (findPeaks signal).length - 1 := by
    simp [consecutiveDiffs]
  have hpos : (0 : ℚ) < ((consecutiveDiffs (findPeaks signal)).length : ℚ) := by
    rw [hlen]
    have : 0 < (findPeaks signal).length - 1 := by omega
    exact_mod_cast this
  unfold arithmeticMean
  rw [le_div_iff₀ hpos]
  exact sum_ge_of_forall_ge _ 10 (consecutiveDiffs_ge _ (findPeaks_spaced signal))

/-- An estimate, when there is one, is `samplingRate * 60` over a mean spacing of at least 10. -/
theorem calculateHeartRate_some (samplingRate : ℚ) (signal : List ℚ) (bpm : ℚ)
    (h : calculateHeartRate samplingRate signal = some bpm) :
    3 ≤ (findPeaks signal).length ∧
      bpm = samplingRate * 60 / arithmeticMean (consecutiveDiffs (findPeaks signal)) := by
  unfold calculateHeartRate at h
  by_cases h1 : signal.length < 64
  · simp [h1] at h
  · by_cases h2 : (findPeaks signal).length < 3
    · simp [h1, h2] at h
    · simp only [h1, h2, if_false, Option.some.injEq, avgInterval_eq] at h
      exact ⟨by omega, h.symm⟩

/-- C16: an estimate of `calculateHeartRate` at `samplingRate = 30` is positive and at most
180; for any non-negative `samplingRate` it is at most `samplingRate * 6`; so with
`samplingRate = 30` every estimate of at least 45 passes the plausibility check of
`processSignalData`. -/
theorem calculateHeartRate_upper_bound (signal : List ℚ) :
    (∀ bpm, calculateHeartRate 30 signal = some bpm → 0 < bpm ∧ bpm ≤ 180) ∧
      (∀ samplingRate bpm : ℚ, 0 ≤ samplingRate →
        calculateHeartRate samplingRate signal = some bpm → bpm ≤ samplingRate * 6) ∧
      (∀ (st : Monitor) (clock bpm : ℚ), st.samplingRate = 30 →
        st.samplingRate * 5 ≤ st.signalBuffer.length →
        calculateHeartRate st.samplingRate (applyBandpassFilter st.signalBuffer) = some bpm →
        45 ≤ bpm →
        bpm ≤ 180 ∧ (processSignalData st clock).hrStatus = .measuring ∧
          (processSignalData st clock).heartRateValue = .bpm (mathRound bpm)) := by
  have hgen : ∀ (sig : List ℚ) (samplingRate bpm : ℚ), 0 ≤ samplingRate →
      calculateHeartRate samplingRate sig = some bpm → bpm ≤ samplingRate * 6 := by
    intro sig samplingRate bpm hsr h
    obtain ⟨hk, hb⟩ := calculateHeartRate_some samplingRate sig bpm h
    have hm := arithmeticMean_diffs_ge sig (by omega)
    have hpos : 0 < arithmeticMean (consecutiveDiffs (findPeaks sig)) := by linarith
    rw [hb, div_le_iff₀ hpos]
    nlinarith
  refine ⟨?_, hgen signal, ?_⟩
  · intro bpm h
    obtain ⟨hk, hb⟩ := calculateHeartRate_some 30 signal bpm h
    have hm := arithmeticMean_diffs_ge signal (by omega)
    have hpos : 0 < arithmeticMean (consecutiveDiffs (findPeaks signal)) := by linarith
    refine ⟨?_, ?_⟩
    · rw [hb]
      exact div_pos (by norm_num) hpos
    · have := hgen signal 30 bpm (by norm_num) h
      linarith
  · intro st clock bpm hsr hbuf hr h45
    have h180 : bpm ≤ 180 := by
      have := hgen _ st.samplingRate bpm (by positivity) hr
      rw [hsr] at this
      norm_num at this
      exact this
    rw [processSignalData_accept st clock bpm hbuf hr h45 h180]
    exact ⟨h180, rfl, rfl⟩

/-- Witness for C16 on the filtered triangle wave: the estimate 90 is positive and at most
180, and `processSignalData` accepts it. -/
theorem calculateHeartRate_upper_bound_witness :
    calculateHeartRate 30 (applyBandpassFilter triangle150) = some 90 ∧
      ((0 : ℚ) < 90 ∧ (90 : ℚ) ≤ 180) ∧ (90 : ℚ) ≤ 30 * 6 ∧
      (processSignalData triangleMonitor 5000).hrStatus = .measuring := by
  have hrate : calculateHeartRate 30 (applyBandpassFilter triangle150) = some 90 := by
    simpa using triangle_rate
  have h := calculateHeartRate_upper_bound (applyBandpassFilter triangle150)
  exact ⟨hrate, h.1 90 hrate, h.2.1 30 90 (by norm_num) hrate,
    (h.2.2 triangleMonitor 5000 90 rfl triangleMonitor_buffered triangle_rate
      (by norm_num)).2.1⟩

/-- The consecutive differences of a non-empty list of indices sum to last minus first. -/
theorem consecutiveDiffs_sum (peaks : List Nat) (h : peaks ≠ []) :
    (consecutiveDiffs peaks).sum =
      (peaks.getD (peaks.length - 1) 0 : ℚ) - (peaks.getD 0 0 : ℚ) := by
  induction peaks with
  | nil => exact absurd rfl h
  | cons a t ih =>
    cases t with
    | nil => simp [consecutiveDiffs]
    | cons b t =>
      have ih' := ih (by simp)
      simp only [consecutiveDiffs, List.tail_cons, List.zipWith_cons_cons, List.sum_cons] at ih' ⊢
      rw [ih']
      simp only [List.length_cons, Nat.add_sub_cancel, List.getD_cons_succ, List.getD_cons_zero]
      ring

/-- The estimate in closed form: it is `endpointRate` of the accepted peaks. -/
theorem calculateHeartRate_eq_endpointRate (samplingRate : ℚ) (signal : List ℚ) (bpm : ℚ)
    (h : calculateHeartRate samplingRate signal = some bpm) :
    bpm = endpointRate samplingRate (findPeaks signal) := by
  obtain ⟨hk, hb⟩ := calculateHeartRate_some samplingRate signal bpm h
  have hne : findPeaks signal ≠ [] := by
    intro he
    rw [he] at hk
    simp at hk
  have hlen : ((consecutiveDiffs (findPeaks signal)).length : ℚ) =
      ((findPeaks signal).length : ℚ) - 1 := by
    have : (consecutiveDiffs (findPeaks signal)).length = (findPeaks signal).length - 1 := by
      simp [consecutiveDiffs]
    rw [this, Nat.cast_sub (by omega)]
    simp
  rw [hb]
  unfold endpointRate arithmeticMean
  rw [consecutiveDiffs_sum _ hne, hlen, div_div_eq_mul_div]

/-- Indices that advance by `d` at every step are `first + i * d`. -/
theorem getD_of_equally_spaced (peaks : List Nat) (d : Nat)
    (hd : ∀ i, i + 1 < peaks.length → peaks.getD (i + 1) 0 = peaks.getD i 0 + d) (i : Nat)
    (hi : i < peaks.length) : peaks.getD i 0 = peaks.getD 0 0 + i * d := by
  induction i with
  | zero => simp
  | succ i ih =>
    rw [hd i hi, ih (by omega)]
    ring

/-- C17: when `calculateHeartRate` returns an estimate there are `k ≥ 3` accepted peaks
`p_1 < ... < p_k` and the estimate is `samplingRate * 60 * (k - 1) / (p_k - p_1)`; two
signals with the same first peak, last peak and number of peaks get the same estimate; and
peaks equally spaced `d` apart give `samplingRate * 60 / d`. -/
theorem calculateHeartRate_endpoints (samplingRate : ℚ) (signal : List ℚ) (bpm : ℚ)
    (h : calculateHeartRate samplingRate signal = some bpm) :
    3 ≤ (findPeaks signal).length ∧
      (findPeaks signal).getD 0 0 <
        (findPeaks signal).getD ((findPeaks signal).length - 1) 0 ∧
      bpm = samplingRate * 60 * (((findPeaks signal).length : ℚ) - 1) /
        (((findPeaks signal).getD ((findPeaks signal).length - 1) 0 : ℚ) -
          ((findPeaks signal).getD 0 0 : ℚ)) ∧
      (∀ (other : List ℚ) (bpm2 : ℚ), calculateHeartRate samplingRate other = some bpm2 →
        (findPeaks other).length = (findPeaks signal).length →
        (findPeaks other).getD 0 0 = (findPeaks signal).getD 0 0 →
        (findPeaks other).getD ((findPeaks other).length - 1) 0 =
          (findPeaks signal).getD ((findPeaks signal).length - 1) 0 →
        bpm2 = bpm) ∧
      (∀ d : Nat,
        (∀ i, i + 1 < (findPeaks signal).length →
          (findPeaks signal).getD (i + 1) 0 = (findPeaks signal).getD i 0 + d) →
        bpm = samplingRate * 60 / (d : ℚ)) := by
  have hk := (calculateHeartRate_some samplingRate signal bpm h).1
  have he := calculateHeartRate_eq_endpointRate samplingRate signal bpm h
  refine ⟨hk, ?_, he, ?_, ?_⟩
  · have hs := findPeaks_sorted signal
    rw [List.pairwise_iff_getElem] at hs
    have := hs 0 ((findPeaks signal).length - 1) (by omega) (by omega) (by omega)
    simpa [List.getD_eq_getElem?_getD, List.getElem?_eq_getElem,
      show 0 < (findPeaks signal).length by omega,
      show (findPeaks signal).length - 1 < (findPeaks signal).length by omega] using this
  · intro other bpm2 h2 hlen hfirst hlast
    rw [calculateHeartRate_eq_endpointRate samplingRate other bpm2 h2, he]
    unfold endpointRate
    rw [hlast, hfirst, hlen]
  · intro d hd
    have hlast := getD_of_equally_spaced _ d hd ((findPeaks signal).length - 1) (by omega)
    rw [he]
    unfold endpointRate
    rw [hlast]
    have hk1 : ((findPeaks signal).length : ℚ) - 1 ≠ 0 := by
      have : (3 : ℚ) ≤ ((findPeaks signal).length : ℚ) := by exact_mod_cast hk
      intro h0
      linarith
    have hcast : (((findPeaks signal).length - 1 : Nat) : ℚ) =
        ((findPeaks signal).length : ℚ) - 1 := by
      rw [Nat.cast_sub (by omega)]
      simp
    push_cast
    rw [hcast]
    by_cases hd0 : (d : ℚ) = 0
    · simp [hd0]
    · field_simp
      ring

/-- Witness for C17 on the raw triangle wave: 7 peaks from 10 to 130, 20 apart, give
`30 * 60 * 6 / 120 = 30 * 60 / 20 = 90`. -/
theorem calculateHeartRate_endpoints_witness :
    calculateHeartRate 30 triangle150 = some 90 ∧
      findPeaks triangle150 = [10, 30, 50, 70, 90, 110, 130] ∧
      (90 : ℚ) = 30 * 60 * (((findPeaks triangle150).length : ℚ) - 1) /
        (((findPeaks triangle150).getD ((findPeaks triangle150).length - 1) 0 : ℚ) -
          ((findPeaks triangle150).getD 0 0 : ℚ)) ∧
      (90 : ℚ) = 30 * 60 / ((20 : Nat) : ℚ) := by
  have hrate : calculateHeartRate 30 triangle150 = some 90 := by decide!
  have hpeaks : findPeaks triangle150 = [10, 30, 50, 70, 90, 110, 130] := by decide!
  have h := calculateHeartRate_endpoints 30 triangle150 90 hrate
  refine ⟨hrate, hpeaks, h.2.2.1, h.2.2.2.2 20 ?_⟩
  rw [hpeaks]
  intro i hi
  have hi6 : i < 6 := by
    simp only [List.length_cons, List.length_nil] at hi
    omega
  interval_cases i <;> rfl

/-! ## Quality score and chrominance transform in binary64 arithmetic -/

theorem toDouble_zero : Binary64.toDouble 0 = some 0 := by
  simp [Binary64.toDouble]

theorem toDouble_one : Binary64.toDouble 1 = some 1 := by
  decide!

/-- Rounding on sample values: `1 / 3`; ties go to the even significand at `2 ^ 53 + 1` and
`2 ^ 53 + 3`; half the least subnormal goes to 0 and three halves of it to twice it; the
largest finite value stays and `2 ^ 1024` has no finite value. -/
theorem toDouble_samples :
    Binary64.toDouble (1 / 3) = some (6004799503160661 / 18014398509481984) ∧
      Binary64.toDouble 9007199254740993 = some 9007199254740992 ∧
      Binary64.toDouble 9007199254740995 = some 9007199254740996 ∧
      Binary64.toDouble (Binary64.twoPow (-1075)) = some 0 ∧
      Binary64.toDouble (3 * Binary64.twoPow (-1075)) = some (Binary64.twoPow (-1073)) ∧
      Binary64.toDouble (9007199254740991 * Binary64.twoPow 971) =
        some (9007199254740991 * Binary64.twoPow 971) ∧
      Binary64.toDouble (Binary64.twoPow 1024) = none := by
  decide!

theorem log2Fuel_le (fuel n k : Nat) (h : n < 2 ^ (k + 1)) : Binary64.log2Fuel fuel n ≤ k := by
  induction fuel generalizing n k with
  | zero => simp [Binary64.log2Fuel]
  | succ fuel ih =>
    unfold Binary64.log2Fuel
    split_ifs with h2
    · cases k with
      | zero => omega
      | succ k =>
        have : n / 2 < 2 ^ (k + 1) := by
          rw [Nat.div_lt_iff_lt_mul (by norm_num)]
          rw [pow_succ] at h
          omega
        have := ih (n / 2) k this
        omega
    · omega

theorem twoPow_neg (m : Nat) : Binary64.twoPow (-(m : ℤ)) = 1 / ((2 ^ m : Nat) : ℚ) := by
  cases m with
  | zero => simp [Binary64.twoPow]
  | succ m =>
    have : (-((m + 1 : Nat) : ℤ)) = Int.negSucc m := rfl
    rw [this]
    rfl

theorem roundHalfEven_natCast (n : Nat) : Binary64.roundHalfEven (n : ℚ) = (n : ℤ) := by
  unfold Binary64.roundHalfEven
  have hf : ⌊(n : ℚ)⌋ = (n : ℤ) := Int.floor_natCast n
  simp only [hf]
  norm_num

/-- A natural number below `2 ^ 53` is a binary64 value. -/
theorem toDouble_natCast (n : Nat) (h : n < 2 ^ 53) : Binary64.toDouble (n : ℚ) = some (n : ℚ) := by
  by_cases hn : n = 0
  · subst hn
    simpa using toDouble_zero
  · have hx : (n : ℚ) ≠ 0 := by exact_mod_cast hn
    have hlog : Binary64.ilog2 (n : ℚ) ≤ 52 := by
      unfold Binary64.ilog2
      have h1 : Binary64.log2 n ≤ 52 := log2Fuel_le n n 52 h
      have h2 : Binary64.log2 1 = 0 := by decide
      simp only [Rat.num_natCast, Int.natAbs_ofNat, Rat.den_natCast, h2]
      split_ifs <;> omega
    obtain ⟨m, hm⟩ : ∃ m : Nat, max (Binary64.ilog2 (n : ℚ)) (-1022) - 52 = -(m : ℤ) := by
      refine ⟨(52 - max (Binary64.ilog2 (n : ℚ)) (-1022)).toNat, ?_⟩
      have : max (Binary64.ilog2 (n : ℚ)) (-1022) ≤ 52 := max_le hlog (by norm_num)
      omega
    unfold Binary64.toDouble
    rw [if_neg hx]
    simp only [hm, twoPow_neg]
    have hq : (n : ℚ) / (1 / ((2 ^ m : Nat) : ℚ)) = ((n * 2 ^ m : Nat) : ℚ) := by
      push_cast
      field_simp
    rw [hq, roundHalfEven_natCast]
    have hy : (((n * 2 ^ m : Nat) : ℤ) : ℚ) * (1 / ((2 ^ m : Nat) : ℚ)) = (n : ℚ) := by
      push_cast
      field_simp
    rw [hy]
    have hlt : |(n : ℚ)| < Binary64.twoPow 1024 := by
      rw [abs_of_nonneg (by positivity)]
      have hpow : ∀ k : Nat, 53 ≤ k → (n : ℚ) < Binary64.twoPow (k : ℤ) := by
        intro k hk
        have e : Binary64.twoPow (k : ℤ) = ((2 ^ k : Nat) : ℚ) := rfl
        rw [e]
        have : n < 2 ^ k := lt_of_lt_of_le h (Nat.pow_le_pow_right (by decide) hk)
        exact_mod_cast this
      exact hpow 1024 (by decide)
    rw [if_pos hlt]

/-- The channel mean of a whole-number level is the level itself. -/
theorem channelMean_natCast (n : Nat) (h : 3 * n < 2 ^ 53) :
    Binary64.channelMean (n : ℚ) (n : ℚ) (n : ℚ) = some (n : ℚ) := by
  have e2 : (n : ℚ) + (n : ℚ) = ((2 * n : Nat) : ℚ) := by push_cast; ring
  have e3 : ((2 * n : Nat) : ℚ) + (n : ℚ) = ((3 * n : Nat) : ℚ) := by push_cast; ring
  have e4 : ((3 * n : Nat) : ℚ) / 3 = (n : ℚ) := by push_cast; field_simp
  unfold Binary64.channelMean Binary64.add Binary64.div
  rw [e2, toDouble_natCast (2 * n) (by omega)]
  simp only [Option.bind_eq_bind, Option.some_bind]
  rw [e3, toDouble_natCast (3 * n) h]
  simp only [Option.some_bind]
  rw [if_neg (by norm_num), e4, toDouble_natCast n (by omega)]

/-- When the computed channel mean of `(c, c, c)` is `c`, the result is 0. -/
theorem chromAlgorithm_of_exact_mean (c : ℚ) (h : Binary64.channelMean c c c = some c) :
    Binary64.chromAlgorithm c c c = some 0 := by
  unfold Binary64.chromAlgorithm
  by_cases hc : c = 0
  · subst hc
    simp [h]
  · have hdiv : Binary64.div c c = some 1 := by
      unfold Binary64.div
      rw [if_neg hc, div_self hc]
      exact toDouble_one
    have hsub : Binary64.sub 1 1 = some 0 := by
      simp [Binary64.sub, toDouble_zero]
    have hm3 : Binary64.mul 3 0 = some 0 := by
      simp [Binary64.mul, toDouble_zero]
    have hm2 : Binary64.mul 2 0 = some 0 := by
      simp [Binary64.mul, toDouble_zero]
    have hs0 : Binary64.sub 0 0 = some 0 := by
      simp [Binary64.sub, toDouble_zero]
    simp [h, hc, hdiv, hsub, hm3, hm2, hs0]

/-- C13 as amended: `chromAlgorithm(c, c, c)` is 0 at the black frame `c = 0`, where the
guard returns without dividing, and for every `c` whose channel mean computed in doubles,
`((c + c) + c) / 3`, is again `c`; the whole-number levels with `3 c < 2 ^ 53` are such
values, and among them the 8-bit levels `0..255`. -/
theorem chromAlgorithm_gray_levels (c : ℚ) :
    Binary64.chromAlgorithm 0 0 0 = some 0 ∧
      (Binary64.channelMean c c c = some c → Binary64.chromAlgorithm c c c = some 0) ∧
      (∀ n : Nat, 3 * n < 2 ^ 53 →
        Binary64.channelMean (n : ℚ) (n : ℚ) (n : ℚ) = some (n : ℚ) ∧
          Binary64.chromAlgorithm (n : ℚ) (n : ℚ) (n : ℚ) = some 0) := by
  refine ⟨?_, chromAlgorithm_of_exact_mean c, ?_⟩
  · have h0 : Binary64.channelMean 0 0 0 = some 0 := by
      simpa using channelMean_natCast 0 (by norm_num)
    simp [Binary64.chromAlgorithm, h0]
  · intro n hn
    exact ⟨channelMean_natCast n hn, chromAlgorithm_of_exact_mean _ (channelMean_natCast n hn)⟩

/-- Witness for the amended C13 at the level 200, whose channel mean is exactly 200. -/
theorem chromAlgorithm_gray_levels_witness :
    Binary64.channelMean 200 200 200 = some 200 ∧
      Binary64.chromAlgorithm 200 200 200 = some 0 ∧
      Binary64.chromAlgorithm ((255 : Nat) : ℚ) ((255 : Nat) : ℚ) ((255 : Nat) : ℚ) = some 0 :=
  ⟨by decide!, (chromAlgorithm_gray_levels 200).2.1 (by decide!),
    ((chromAlgorithm_gray_levels 0).2.2 255 (by norm_num)).2⟩

/-- Counterexample to C13 as stated: at the binary64 value of `0.1` the computed channel
mean is not `0.1` and the result is `-2 ^ -53`; at the pixel average `45007 / 450` the
result is `2 ^ -52`. -/
theorem chromAlgorithm_residue :
    Binary64.toDouble (1 / 10) = some tenth ∧
      Binary64.chromAlgorithm tenth tenth tenth = some (-1 / 9007199254740992) ∧
      Binary64.chromAlgorithm tenth tenth tenth ≠ some 0 ∧
      Binary64.toDouble (45007 / 450) = some levelAverage ∧
      Binary64.chromAlgorithm levelAverage levelAverage levelAverage =
        some (1 / 4503599627370496) := by
  decide!

theorem squareStep_self (c : ℚ) : Binary64.squareStep c 0 c = some 0 := by
  simp [Binary64.squareStep, Binary64.sub, Binary64.mul, Binary64.add, toDouble_zero]

/-- Samples equal to the mean leave the sum of squared deviations at 0. -/
theorem foldlM_squareStep_replicate (c : ℚ) (k : Nat) :
    (List.replicate k c).foldlM (Binary64.squareStep c) 0 = some 0 := by
  induction k with
  | zero => rfl
  | succ k ih =>
    rw [List.replicate_succ, List.foldlM_cons, squareStep_self]
    exact ih

/-- Summing `k` copies of a whole number onto `j` copies is exact below `2 ^ 53`. -/
theorem foldlM_add_replicate (n k j : Nat) (h : (j + k) * n < 2 ^ 53) :
    (List.replicate k (n : ℚ)).foldlM (fun a b => Binary64.add a b) ((j * n : Nat) : ℚ) =
      some (((j + k) * n : Nat) : ℚ) := by
  induction k generalizing j with
  | zero => simp
  | succ k ih =>
    have hstep : Binary64.add ((j * n : Nat) : ℚ) (n : ℚ) = some (((j + 1) * n : Nat) : ℚ) := by
      unfold Binary64.add
      have e : ((j * n : Nat) : ℚ) + (n : ℚ) = (((j + 1) * n : Nat) : ℚ) := by
        push_cast; ring
      rw [e]
      apply toDouble_natCast
      have : (j + 1) * n ≤ (j + (k + 1)) * n := Nat.mul_le_mul_right n (by omega)
      omega
    rw [List.replicate_succ, List.foldlM_cons, hstep]
    have := ih (j + 1) (by rw [show j + 1 + k = j + (k + 1) by omega]; exact h)
    rw [show j + 1 + k = j + (k + 1) by omega] at this
    exact this

/-- The computed mean of 30 copies of a whole number is that number. -/
theorem recentMean_natCast (n : Nat) (h : 30 * n < 2 ^ 53) :
    Binary64.recentMean (List.replicate 30 (n : ℚ)) = some (n : ℚ) := by
  have hsum := foldlM_add_replicate n 30 0 (by omega)
  simp only [Nat.zero_mul, Nat.cast_zero, Nat.zero_add] at hsum
  unfold Binary64.recentMean
  rw [hsum]
  simp only [Option.bind_eq_bind, Option.some_bind, List.length_replicate]
  unfold Binary64.div
  rw [if_neg (by norm_num)]
  have e : ((30 * n : Nat) : ℚ) / ((30 : Nat) : ℚ) = (n : ℚ) := by
    push_cast; field_simp
  rw [e]
  exact toDouble_natCast n (by omega)

/-- Thirty trailing samples equal to `c` whose computed mean is `c` give 50. -/
theorem calculateConfidence_of_exact_mean (signalBuffer : List ℚ) (c : ℚ)
    (hlen : 30 ≤ signalBuffer.length)
    (hc : ∀ x ∈ signalBuffer.drop (signalBuffer.length - 30), x = c)
    (hmean : Binary64.recentMean (List.replicate 30 c) = some c) :
    Binary64.calculateConfidence signalBuffer = some 50 := by
  have hrep : signalBuffer.drop (signalBuffer.length - 30) = List.replicate 30 c := by
    rw [List.eq_replicate_iff]
    exact ⟨by rw [List.length_drop]; omega, hc⟩
  have hdiv : Binary64.div 0 ((30 : Nat) : ℚ) = some 0 := by
    unfold Binary64.div
    rw [if_neg (by norm_num)]
    simpa using toDouble_zero
  unfold Binary64.calculateConfidence
  rw [if_neg (by omega)]
  simp only [hrep, hmean, Option.bind_eq_bind, Option.some_bind, foldlM_squareStep_replicate,
    List.length_replicate, hdiv, if_true]

/-- C12 as amended: `calculateConfidence` returns 0 when the buffer holds fewer than 30
samples; when it holds at least 30 and the last 30 all equal `c`, it returns 50 provided
the mean computed in doubles (the samples summed left to right, divided by 30) is again
`c`, whatever the earlier samples are; every whole number `c` with `30 c < 2 ^ 53`, so
every 8-bit level, has that property. -/
theorem calculateConfidence_flat_levels (signalBuffer : List ℚ) :
    (signalBuffer.length < 30 → Binary64.calculateConfidence signalBuffer = some 0) ∧
      (30 ≤ signalBuffer.length → ∀ c : ℚ,
        (∀ x ∈ signalBuffer.drop (signalBuffer.length - 30), x = c) →
        Binary64.recentMean (List.replicate 30 c) = some c →
        Binary64.calculateConfidence signalBuffer = some 50) ∧
      (30 ≤ signalBuffer.length → ∀ n : Nat, 30 * n < 2 ^ 53 →
        (∀ x ∈ signalBuffer.drop (signalBuffer.length - 30), x = (n : ℚ)) →
        Binary64.calculateConfidence signalBuffer = some 50) := by
  refine ⟨?_, ?_, ?_⟩
  · intro h
    simp [Binary64.calculateConfidence, h]
  · intro hlen c hc hmean
    exact calculateConfidence_of_exact_mean signalBuffer c hlen hc hmean
  · intro hlen n hn hc
    exact calculateConfidence_of_exact_mean signalBuffer n hlen hc (recentMean_natCast n hn)

/-- Witness for the amended C12: 10 samples give 0; the ramp `0..9` followed by 30 samples
equal to 137 gives 50. -/
theorem calculateConfidence_flat_levels_witness :
    Binary64.calculateConfidence ramp10 = some 0 ∧
      Binary64.recentMean (List.replicate 30 137) = some 137 ∧
      Binary64.calculateConfidence (ramp10 ++ List.replicate 30 137) = some 50 ∧
      Binary64.calculateConfidence (ramp10 ++ List.replicate 30 ((255 : Nat) : ℚ)) = some 50 :=
  ⟨(calculateConfidence_flat_levels ramp10).1 (by decide), by decide!,
    (calculateConfidence_flat_levels (ramp10 ++ List.replicate 30 137)).2.1 (by decide) 137
      (by decide!) (by decide!),
    (calculateConfidence_flat_levels (ramp10 ++ List.replicate 30 ((255 : Nat) : ℚ))).2.2
      (by decide) 255 (by norm_num) (by decide!)⟩

/-- Counterexample to C12 as stated: 30 samples all equal to the binary64 value of `5.1`.
The computed mean is not that value, the variance is not 0 and the result is
`99.99999999999994`, not 50. -/
theorem calculateConfidence_identical_not_fifty :
    Binary64.toDouble (51 / 10) = some fivePointOne ∧
      (∀ x ∈ List.replicate 30 fivePointOne, x = fivePointOne) ∧
      Binary64.recentMean (List.replicate 30 fivePointOne) ≠ some fivePointOne ∧
      Binary64.calculateConfidence (List.replicate 30 fivePointOne) =
        some (1759218604441599 / 17592186044416) ∧
      Binary64.calculateConfidence (List.replicate 30 fivePointOne) ≠ some 50 := by
  refine ⟨by decide!, ?_, by decide!, by decide!, by decide!⟩
  intro x hx
  exact List.eq_of_mem_replicate hx

end IPPG
